import Mathlib

/-!
Shallow embedding of the forwarding / address-allocation core of `main.go`
(the pharod daemon): the address allocator (`sourceAddrForPort`, `succIP`,
release via `removeContainer`), the DNS-name sanitizer
(`dnsNameFromContainerName`), the registry/reconciler
(`addContainer` / `removeContainer`), and a labelled transition system for
the per-`Listener` concurrency (accept loop, connection tracker, forward
copies, `Stop`, `Wait`).

Modelling conventions:
* IPv4 addresses are `Nat` values below `2^32`.  The Go code keys the
  source-address table by the dotted-quad string and round-trips through
  `net.ParseIP` / `ipToInt`; on the reachable addresses (valid dotted
  quads) that round trip is a bijection onto 32-bit values, so the `Nat`
  value is used directly as the key.  `ipToInt` is the identity under this
  representation.
* Go maps become association lists; Go's nondeterministic map iteration
  becomes the list order, and map insertion appends.
* `panic` (process death) becomes `Option.none` / a `fatal` result.
-/

/-- `net.TCPAddr` restricted to the fields the core uses (IP and port). -/
structure TCPAddr where
  ip : Nat
  port : Nat
deriving DecidableEq

/-- The global `sourceAddrs map[string]map[int]*net.TCPAddr`: per source
address, the claimed ports and the destination each claim serves. -/
abbrev AllocState : Type := List (Nat × List (Nat × TCPAddr))

/-- The addresses currently held in the source-address table. -/
def addrs (s : AllocState) : List Nat := s.map (fun e => e.1)

/-- Whether the pair (address `a`, port `p`) is currently claimed. -/
def claimedPair (s : AllocState) (a p : Nat) : Bool :=
  s.any (fun e => e.1 == a && e.2.any (fun pc => pc.1 == p))

/-- `SourceStartIP = net.ParseIP("127.2.2.1")` as a 32-bit value. -/
def SourceStartIP : Nat := 127 * 2 ^ 24 + 2 * 2 ^ 16 + 2 * 2 ^ 8 + 1

/-- `succIP`: adds one to the 32-bit value and reassembles the four bytes,
i.e. increments modulo `2^32`. -/
def succIP (ip : Nat) : Nat := (ip + 1) % 2 ^ 32

/-- `net.IP.IsLoopback` for an IPv4 value: the first byte is 127. -/
def isLoopback (ip : Nat) : Bool := (ip / 2 ^ 24) % 256 == 127

/-- The scan loop of `sourceAddrForPort`: find the first source address
whose claim map does not contain `port`, claim `(port ↦ dest)` there and
return that address with the updated table.  (Go iterates the map in
unspecified order; the model fixes list order.) -/
def scanClaim (port : Nat) (dest : TCPAddr) : AllocState → Option (Nat × AllocState)
  | [] => none
  | (a, cs) :: rest =>
    if cs.any (fun pc => pc.1 == port) then
      match scanClaim port dest rest with
      | some (a', rest') => some (a', (a, cs) :: rest')
      | none => none
    else
      some (a, (a, cs ++ [(port, dest)]) :: rest)

/-- The `lastAddr` computation of `sourceAddrForPort`: the numerically
highest address currently held (`ipToInt` comparison). -/
def maxAddr : AllocState → Option Nat
  | [] => none
  | e :: rest =>
    some (match maxAddr rest with
          | none => e.1
          | some m => if e.1 > m then e.1 else m)

/-- `sourceAddrForPort(port, dest)`: claim `port` on the first source
address that does not hold it; otherwise provision the successor of the
highest held address (or `SourceStartIP` when none is held), claim `port`
there.  `none` models the `panic("ran out of loopback addresses!")` when
the next address would leave the loopback range.  The returned `Nat` is
the IP of the `*net.TCPAddr` handed back (its port is the argument). -/
def sourceAddrForPort (port : Nat) (dest : TCPAddr) (s : AllocState) :
    Option (Nat × AllocState) :=
  match scanClaim port dest s with
  | some r => some r
  | none =>
    let nextIP := match maxAddr s with
      | none => SourceStartIP
      | some m => succIP m
    if isLoopback nextIP then
      some (nextIP, s ++ [(nextIP, [(port, dest)])])
    else
      none

/-- The release performed by `removeContainer`:
`delete(sourceAddrs[addr], port)` — drop the port claim, keep the address
entry. -/
def releasePort (addr port : Nat) (s : AllocState) : AllocState :=
  s.map (fun e =>
    if e.1 == addr then (e.1, e.2.filter (fun pc => !(pc.1 == port))) else e)

/-- An allocator-level operation: an allocation request or a release. -/
inductive AllocOp where
  | alloc (port : Nat) (dest : TCPAddr)
  | release (addr port : Nat)

/-- Apply one allocator operation.  A failed allocation (loopback space
exhausted) kills the Go process; the state is left as is. -/
def applyOp (op : AllocOp) (s : AllocState) : AllocState :=
  match op with
  | .alloc p d =>
    match sourceAddrForPort p d s with
    | some (_, s') => s'
    | none => s
  | .release a p => releasePort a p s

/-- Run a sequence of allocator operations from the initial empty table
(`sourceAddrs = make(map[string]map[int]*net.TCPAddr)`). -/
def runOps (ops : List AllocOp) : AllocState :=
  ops.foldl (fun s op => applyOp op s) []

/-- The allocator's internal invariant: held addresses are pairwise
distinct, each address's claimed ports are pairwise distinct, and every
address is a 32-bit value. -/
def AllocInv (s : AllocState) : Prop :=
  (addrs s).Nodup ∧ (∀ e ∈ s, (e.2.map (fun pc => pc.1)).Nodup) ∧
    ∀ e ∈ s, e.1 < 2 ^ 32

/-! ## DNS-name sanitizer (`dnsNameFromContainerName`) -/

/-- The character class of `dnsNameAllowedChars = [^-a-z0-9.]+`: a
character the regex does NOT match, i.e. one of `-`, `a`–`z`, `0`–`9`,
`.`. -/
def isDnsAllowed (c : Char) : Bool :=
  c == '-' || ('a' ≤ c && c ≤ 'z') || ('0' ≤ c && c ≤ '9') || c == '.'

/-- `dnsNameAllowedChars.ReplaceAllLiteralString(name, "-")`: each maximal
run of disallowed characters becomes a single `-`.  The flag records
whether we are inside a disallowed run. -/
def replRuns (inRun : Bool) : List Char → List Char
  | [] => []
  | c :: cs =>
    if isDnsAllowed c then c :: replRuns false cs
    else if inRun then replRuns true cs
    else '-' :: replRuns true cs

/-- Left half of `strings.Trim(s, "-")`: drop leading hyphens. -/
def trimL : List Char → List Char
  | [] => []
  | c :: cs => if c == '-' then trimL cs else c :: cs

/-- Right half of `strings.Trim(s, "-")`: drop trailing hyphens. -/
def trimR : List Char → List Char
  | [] => []
  | c :: cs =>
    match trimR cs with
    | [] => if c == '-' then [] else [c]
    | x :: xs => c :: x :: xs

/-- `dnsNameHyphenStrings.ReplaceAllLiteralString(s, "-")` with
`-{2,}`: collapse every run of two or more hyphens into one.  The flag
records whether the previous emitted position ended a hyphen run. -/
def collapseH (prevH : Bool) : List Char → List Char
  | [] => []
  | c :: cs =>
    if c == '-' then
      if prevH then collapseH true cs else '-' :: collapseH true cs
    else c :: collapseH false cs

/-- `dnsNameFromContainerName`: replace disallowed runs with `-`, trim
leading/trailing hyphens, collapse hyphen runs. -/
def dnsNameFromContainerName (containerName : String) : String :=
  ⟨collapseH false (trimR (trimL (replRuns false containerName.data)))⟩

/-- The sanitizer as the spec sentence literally words it: *strip* every
character outside `[a-z0-9.-]`, collapse consecutive hyphens, trim
leading/trailing hyphens.  Kept separate from the source-derived
`dnsNameFromContainerName` to compare the two. -/
def dnsNameSpecStrip (containerName : String) : String :=
  ⟨trimR (trimL (collapseH false (containerName.data.filter isDnsAllowed)))⟩

/-- Last element of a character list. -/
def lastChar : List Char → Option Char
  | [] => none
  | [c] => some c
  | _ :: c :: cs => lastChar (c :: cs)

/-- No two consecutive hyphens anywhere in the list. -/
def noDouble : List Char → Bool
  | [] => true
  | [_] => true
  | a :: b :: rest => !(a == '-' && b == '-') && noDouble (b :: rest)

/-! ## Listener construction and the registry/reconciler -/

/-- The fields of a `*Listener` relevant to registry state: the derived
DNS name, the bound source address, and the destination. -/
structure Listener where
  dnsName : String
  src : TCPAddr
  dest : TCPAddr
deriving DecidableEq

/-- `docker.APIPort` as used by the core: private port, public port, and
the destination IP as reported by the runtime.  The reported IP is either
a resolvable concrete address, the unspecified address (`0.0.0.0`), or an
unresolvable string (models `net.ResolveIPAddr` failing). -/
inductive PortIP where
  | unresolvable
  | unspecified
  | addr (ip : Nat)
deriving DecidableEq

structure APIPort where
  privatePort : Nat
  publicPort : Nat
  ip : PortIP
deriving DecidableEq

/-- The container metadata the reconciler reads from the inspector:
`c.ID`, `c.Name`, and `c.NetworkSettings.PortMappingAPI()`. -/
structure ContainerInfo where
  id : String
  name : String
  ports : List APIPort
deriving DecidableEq

/-- `containerPortKey`: `fmt.Sprintf("%s:%d", c.ID, p.PrivatePort)`. -/
def containerPortKey (c : ContainerInfo) (p : APIPort) : String :=
  c.id ++ ":" ++ toString p.privatePort

/-- Result of `ListenerFromContainerAndPort`: an error returned to the
caller, a fatal panic (allocator exhaustion), or a constructed Listener
together with the updated source-address table. -/
inductive LfcpResult where
  | err (msg : String)
  | fatal
  | ok (l : Listener) (sa : AllocState)
deriving DecidableEq

/-- `ListenerFromContainerAndPort(container, port)`.  `fe` is the global
`firstEphemeralPort`, `dockerHostIP` the global `dockerIP` substituted for
an unspecified destination. -/
def ListenerFromContainerAndPort (fe dockerHostIP : Nat) (c : ContainerInfo)
    (p : APIPort) (sa : AllocState) : LfcpResult :=
  if c.name = "" then
    .err ("Container " ++ c.id ++ " has no name from which to build a DNS name")
  else if p.publicPort = 0 ∨ p.privatePort = 0 then
    .err ("Public port not exposed for " ++ toString p.publicPort ++ " on " ++ c.name)
  else
    let dns := dnsNameFromContainerName c.name
    if dns = "" then
      .err ("Could not build a non-empty DNS name from " ++ c.name)
    else
      match p.ip with
      | .unresolvable => .err "destination IP could not be resolved"
      | .unspecified =>
        let dest : TCPAddr := ⟨dockerHostIP, p.publicPort⟩
        let srcPort := if dest.port ≥ fe then p.privatePort else dest.port
        match sourceAddrForPort srcPort dest sa with
        | some (a, sa') => .ok ⟨dns, ⟨a, srcPort⟩, dest⟩ sa'
        | none => .fatal
      | .addr i =>
        let dest : TCPAddr := ⟨i, p.publicPort⟩
        let srcPort := if dest.port ≥ fe then p.privatePort else dest.port
        match sourceAddrForPort srcPort dest sa with
        | some (a, sa') => .ok ⟨dns, ⟨a, srcPort⟩, dest⟩ sa'
        | none => .fatal

/-- The global mutable state the reconciler writes: the source-address
table, the DNS zone (`dnsZone map[string]net.IP`), and the registry
(`containerListeners map[string]*Listener`). -/
structure SysState where
  sourceAddrs : AllocState
  dnsZone : List (String × Nat)
  containerListeners : List (String × Listener)
deriving DecidableEq

/-- Go map assignment `dnsZone[name] = ip`: overwrite in place if the name
is present, otherwise add. -/
def zoneInsert (n : String) (ip : Nat) (z : List (String × Nat)) :
    List (String × Nat) :=
  if z.any (fun e => e.1 == n) then
    z.map (fun e => if e.1 == n then (e.1, ip) else e)
  else z ++ [(n, ip)]

/-- Lookup in the DNS zone. -/
def zoneLookup (n : String) (z : List (String × Nat)) : Option Nat :=
  (z.find? (fun e => e.1 == n)).map (fun e => e.2)

/-- Whether `key` is already present in the registry. -/
def keyPresent (k : String) (st : SysState) : Bool :=
  st.containerListeners.any (fun e => e.1 == k)

/-- One iteration of the `addContainer` loop body for one port mapping:
skip if the key is already registered; on a construction error log and
skip; otherwise start the listener, register it and publish its hostname.
`none` models a panic (process death). -/
def addPort (fe dockerHostIP : Nat) (c : ContainerInfo) (st : SysState)
    (p : APIPort) : Option SysState :=
  let key := containerPortKey c p
  if keyPresent key st then
    some st
  else
    match ListenerFromContainerAndPort fe dockerHostIP c p st.sourceAddrs with
    | .err _ => some st
    | .fatal => none
    | .ok l sa' =>
      some ⟨sa', zoneInsert l.dnsName l.src.ip st.dnsZone,
            st.containerListeners ++ [(key, l)]⟩

/-- `addContainer`: process every reported port mapping in order. -/
def addContainer (fe dockerHostIP : Nat) (c : ContainerInfo)
    (st : SysState) : Option SysState :=
  List.foldlM (addPort fe dockerHostIP c) st c.ports

/-- Character-list prefix test (the `strings.HasPrefix` primitive). -/
def listPrefix : List Char → List Char → Bool
  | [], _ => true
  | _ :: _, [] => false
  | a :: as, b :: bs => a == b && listPrefix as bs

/-- Whether registry key `cp` belongs to container `cid`:
`strings.HasPrefix(cp, cid+":")`. -/
def belongsTo (cid cp : String) : Bool := listPrefix (cid ++ ":").data cp.data

/-- The observable actions `removeContainer` performs for one matching
registry entry, in source order: delete the registry entry, delete the
hostname from the DNS zone, release the (source address, port) claim,
stop the listener. -/
inductive Ev where
  | regDelete (key : String)
  | dnsDelete (name : String)
  | releaseClaim (ip port : Nat)
  | stopListener (key : String)
deriving DecidableEq

/-- The per-entry event block of `removeContainer`. -/
def entryEvents (e : String × Listener) : List Ev :=
  [.regDelete e.1, .dnsDelete e.2.dnsName,
   .releaseClaim e.2.src.ip e.2.src.port, .stopListener e.1]

/-- The `removeContainer` loop over a snapshot of the registry entries
(Go's `range` visits every entry not deleted before its visit; the loop
only deletes the entry currently visited). -/
def removeContainerGo (cid : String) :
    List (String × Listener) → SysState → List Ev → SysState × List Ev
  | [], s, evs => (s, evs)
  | e :: rest, s, evs =>
    if belongsTo cid e.1 then
      removeContainerGo cid rest
        ⟨releasePort e.2.src.ip e.2.src.port s.sourceAddrs,
         s.dnsZone.filter (fun z => !(z.1 == e.2.dnsName)),
         s.containerListeners.filter (fun x => !(x.1 == e.1))⟩
        (evs ++ entryEvents e)
    else
      removeContainerGo cid rest s evs

/-- `removeContainer(cid)`: returns the new state and the trace of
performed actions. -/
def removeContainer (cid : String) (st : SysState) : SysState × List Ev :=
  removeContainerGo cid st.containerListeners st []

/-- Registry invariant: at most one Listener per key. -/
def RegWF (st : SysState) : Prop :=
  st.containerListeners.Pairwise (fun a b => a.1 ≠ b.1)

/-- Zone invariant: at most one address per hostname. -/
def ZoneWF (z : List (String × Nat)) : Prop :=
  z.Pairwise (fun a b => a.1 ≠ b.1)

/-- Projects the chosen source port out of a construction result. -/
def okSrcPort : LfcpResult → Option Nat
  | .ok l _ => some l.src.port
  | _ => none

/-- Whether a construction result is an error returned to the caller. -/
def isErr : LfcpResult → Bool
  | .err _ => true
  | _ => false

/-! ## Relay lifecycle transition system

A labelled transition system for one started `Listener`, mirroring the
goroutines of `Start` (connection tracker, accept loop), `forward` (two
copy goroutines per dialled connection plus the `closedConn` report),
`Stop` and `Wait`:

* `finished` is the `sync.WaitGroup` counter: 1 for the tracker
  (`finished.Add(1)` in `Start`), plus 2 per successfully dialled
  connection (`finished.Add(2)` in `forward`).
* `openConns` is the tracker-owned `openConnections` set size.
* A dialled connection's forward pair is `full` (both copies running),
  then `half` (one copy finished), then — after both copies have called
  `finished.Done()` — it blocks sending on `closedConn`
  (`pendingReports`).
* The unbuffered channels `newConn`, `closedConn` and `closeAllConns`
  rendezvous only while the tracker goroutine is alive; receiving
  `closeAllConns` makes the tracker close every tracked connection, call
  `finished.Done()` and exit.
* `Stop` closes the TCP listener and then sends on `closeAllConns`; the
  accept loop, once `Accept` fails, also sends on `closeAllConns`.
* `Wait` returns once the `finished` counter is zero.
-/

inductive AcceptPhase where
  | accepting
  | closing
  | exited
deriving DecidableEq

inductive StopPhase where
  | idle
  | signalling
  | returned
deriving DecidableEq

structure RelayState where
  finished : Nat
  trackerAlive : Bool
  openConns : Nat
  fullForwards : Nat
  halfForwards : Nat
  pendingReports : Nat
  acceptPhase : AcceptPhase
  listenerClosed : Bool
  stopPhase : StopPhase
  waitReturned : Bool
deriving DecidableEq

inductive RelayAct where
  /-- Accept a connection, register it with the tracker (`newConn`
  rendezvous) and dial the destination successfully: a forward pair
  starts (`finished.Add(2)`). -/
  | acceptDialOk
  /-- Accept and register a connection but fail to dial: the forward
  returns at once, the connection stays tracked. -/
  | acceptDialFail
  /-- One of the two copies of a full forward pair ends
  (`finished.Done()`). -/
  | copyDoneFirst
  /-- The remaining copy of a pair ends (`finished.Done()`); the forward
  now blocks sending its `closedConn` report. -/
  | copyDoneSecond
  /-- The tracker receives a `closedConn` report and unregisters the
  connection. -/
  | reportClosed
  /-- `Stop`: close the TCP listener, start sending `closeAllConns`. -/
  | stopClose
  /-- The accept loop's `Accept` fails (listener closed); it starts
  sending `closeAllConns`. -/
  | acceptError
  /-- The tracker receives the accept loop's `closeAllConns` signal:
  closes every tracked connection, `finished.Done()`, exits. -/
  | trackerRecvAcceptSignal
  /-- The tracker receives `Stop`'s `closeAllConns` signal (same
  effects); `Stop` returns. -/
  | trackerRecvStopSignal
  /-- `Wait` (`finished.Wait()`) returns: only enabled at counter 0. -/
  | waitReturn
deriving DecidableEq

/-- The state right after `Start()` returned. -/
def relayInit : RelayState :=
  ⟨1, true, 0, 0, 0, 0, .accepting, false, .idle, false⟩

def relayStep (s : RelayState) : RelayAct → Option RelayState
  | .acceptDialOk =>
    if s.acceptPhase = .accepting ∧ s.trackerAlive = true then
      some { s with openConns := s.openConns + 1,
                    fullForwards := s.fullForwards + 1,
                    finished := s.finished + 2 }
    else none
  | .acceptDialFail =>
    if s.acceptPhase = .accepting ∧ s.trackerAlive = true then
      some { s with openConns := s.openConns + 1 }
    else none
  | .copyDoneFirst =>
    if 0 < s.fullForwards then
      some { s with fullForwards := s.fullForwards - 1,
                    halfForwards := s.halfForwards + 1,
                    finished := s.finished - 1 }
    else none
  | .copyDoneSecond =>
    if 0 < s.halfForwards then
      some { s with halfForwards := s.halfForwards - 1,
                    finished := s.finished - 1,
                    pendingReports := s.pendingReports + 1 }
    else none
  | .reportClosed =>
    if 0 < s.pendingReports ∧ s.trackerAlive = true then
      some { s with pendingReports := s.pendingReports - 1,
                    openConns := s.openConns - 1 }
    else none
  | .stopClose =>
    if s.stopPhase = .idle then
      some { s with listenerClosed := true, stopPhase := .signalling }
    else none
  | .acceptError =>
    if s.acceptPhase = .accepting ∧ s.listenerClosed = true then
      some { s with acceptPhase := .closing }
    else none
  | .trackerRecvAcceptSignal =>
    if s.acceptPhase = .closing ∧ s.trackerAlive = true then
      some { s with openConns := 0, finished := s.finished - 1,
                    trackerAlive := false, acceptPhase := .exited }
    else none
  | .trackerRecvStopSignal =>
    if s.stopPhase = .signalling ∧ s.trackerAlive = true then
      some { s with openConns := 0, finished := s.finished - 1,
                    trackerAlive := false, stopPhase := .returned }
    else none
  | .waitReturn =>
    if s.finished = 0 then
      some { s with waitReturned := true }
    else none

/-- Run a sequence of relay actions from the just-started state. -/
def relayRun (acts : List RelayAct) : Option RelayState :=
  List.foldlM relayStep relayInit acts

/-- The inductive invariant of the relay system: the WaitGroup counter
accounts exactly for the live tracker and the live copy goroutines;
`Wait` can only have returned at counter 0; `Stop` can only have returned
after killing the tracker; the listener socket is closed from the moment
`Stop` began. -/
def RelayInv (s : RelayState) : Prop :=
  s.finished = (if s.trackerAlive then 1 else 0) +
      2 * s.fullForwards + s.halfForwards
  ∧ (s.waitReturned = true → s.finished = 0)
  ∧ (s.stopPhase = .returned → s.trackerAlive = false)
  ∧ (s.stopPhase ≠ .idle → s.listenerClosed = true)

/-! ## Concrete scenario fixtures -/

/-- The reconciler's state at startup: all three tables empty. -/
def sysInit : SysState := ⟨[], [], []⟩

/-- Containers for the hostname-collision scenario: distinct ids whose
names both derive the DNS name `web-1`. -/
def collA : ContainerInfo := ⟨"aaa", "web#1", [⟨80, 80, .addr 5⟩]⟩

def collB : ContainerInfo := ⟨"bbb", "web-1", [⟨80, 80, .addr 5⟩]⟩

/-- State after reconciling `collA` then `collB` (both with
`firstEphemeralPort = 49152` and docker host IP 9). -/
def collState : SysState :=
  ((addContainer 49152 9 collA sysInit).bind (addContainer 49152 9 collB)).getD sysInit

/-- A single container/port for exercising `addContainer` twice. -/
def idemCont : ContainerInfo := ⟨"ccc", "svc", [⟨80, 3000, .addr 5⟩]⟩

/-- State after reconciling `idemCont` once. -/
def idemState : SysState := (addContainer 49152 9 idemCont sysInit).getD sysInit

/-- Relay interleaving: one connection is accepted and dialled, `Stop` is
called, the accept loop fails and `Stop`'s close-all signal is the one
the tracker receives — `Stop` returns while both copy goroutines of the
dialled connection are still running. -/
def c3StopTrace : List RelayAct :=
  [.acceptDialOk, .stopClose, .acceptError, .trackerRecvStopSignal]

/-- The same interleaving continued until both copies finish and `Wait`
returns. -/
def c3FullTrace : List RelayAct :=
  c3StopTrace ++ [.copyDoneFirst, .copyDoneSecond, .waitReturn]

/-- The state `c3FullTrace` ends in (one `closedConn` report is pending
forever: the tracker is gone — the forward goroutine leak of the Go
code). -/
def c3FinalState : RelayState :=
  ⟨0, false, 0, 0, 0, 1, .closing, true, .returned, true⟩

/-! ## Allocator lemmas -/

theorem scanClaim_some_shape (port : Nat) (dest : TCPAddr) (s : AllocState) :
    ∀ a s', scanClaim port dest s = some (a, s') →
      ∃ pre cs post,
        s = pre ++ (a, cs) :: post ∧
        s' = pre ++ (a, cs ++ [(port, dest)]) :: post ∧
        (∀ e ∈ pre, e.2.any (fun pc => pc.1 == port) = true) ∧
        cs.any (fun pc => pc.1 == port) = false := by
  induction s with
  | nil => intro a s' h; simp [scanClaim] at h
  | cons e rest ih =>
    intro a s' h
    obtain ⟨b, cs⟩ := e
    simp only [scanClaim] at h
    by_cases hcl : cs.any (fun pc => pc.1 == port) = true
    · rw [if_pos hcl] at h
      cases hrec : scanClaim port dest rest with
      | none => rw [hrec] at h; simp at h
      | some r =>
        obtain ⟨a2, rest2⟩ := r
        rw [hrec] at h
        simp only [Option.some.injEq, Prod.mk.injEq] at h
        obtain ⟨ha, hs'⟩ := h
        obtain ⟨pre, cs2, post, h1, h2, h3, h4⟩ := ih a2 rest2 hrec
        subst ha
        refine ⟨(b, cs) :: pre, cs2, post, ?_, ?_, ?_, h4⟩
        · simp [h1]
        · simp [← hs', h2]
        · intro x hx
          rcases List.mem_cons.mp hx with hx | hx
          · subst hx; exact hcl
          · exact h3 x hx
    · rw [if_neg hcl] at h
      simp only [Option.some.injEq, Prod.mk.injEq] at h
      obtain ⟨ha, hs'⟩ := h
      subst ha
      exact ⟨[], cs, rest, by simp, by simp [← hs'],
        by intro x hx; simp at hx, by simp only [Bool.not_eq_true] at hcl; exact hcl⟩

theorem scanClaim_none_all_claimed (port : Nat) (dest : TCPAddr)
    (s : AllocState) (h : scanClaim port dest s = none) :
    ∀ e ∈ s, e.2.any (fun pc => pc.1 == port) = true := by
  induction s with
  | nil => intro e he; simp at he
  | cons e rest ih =>
    intro x hx
    obtain ⟨b, cs⟩ := e
    simp only [scanClaim] at h
    by_cases hcl : cs.any (fun pc => pc.1 == port) = true
    · rw [if_pos hcl] at h
      cases hrec : scanClaim port dest rest with
      | none =>
        rcases List.mem_cons.mp hx with hx | hx
        · subst hx; exact hcl
        · exact ih hrec x hx
      | some r => obtain ⟨a2, rest2⟩ := r; rw [hrec] at h; simp at h
    · rw [if_neg hcl] at h; simp at h

theorem scanClaim_addrs (port : Nat) (dest : TCPAddr) (s : AllocState)
    (a : Nat) (s' : AllocState) (h : scanClaim port dest s = some (a, s')) :
    addrs s' = addrs s ∧ a ∈ addrs s := by
  obtain ⟨pre, cs, post, h1, h2, h3, h4⟩ := scanClaim_some_shape port dest s a s' h
  subst h1; subst h2
  constructor
  · simp [addrs]
  · simp [addrs]

theorem maxAddr_eq_none (s : AllocState) (h : maxAddr s = none) : s = [] := by
  cases s with
  | nil => rfl
  | cons e rest => simp [maxAddr] at h

theorem maxAddr_le (s : AllocState) (m : Nat) (h : maxAddr s = some m) :
    ∀ e ∈ s, e.1 ≤ m := by
  induction s generalizing m with
  | nil => intro e he; simp at he
  | cons e rest ih =>
    intro x hx
    simp only [maxAddr, Option.some.injEq] at h
    rcases List.mem_cons.mp hx with hx | hx
    · subst hx
      cases hrec : maxAddr rest with
      | none => rw [hrec] at h; simp at h; omega
      | some m2 =>
        rw [hrec] at h; simp at h
        subst h
        split <;> omega
    · cases hrec : maxAddr rest with
      | none =>
        have := maxAddr_eq_none rest hrec
        subst this; simp at hx
      | some m2 =>
        rw [hrec] at h; simp at h
        subst h
        have := ih m2 hrec x hx
        split <;> omega

theorem maxAddr_mem (s : AllocState) (m : Nat) (h : maxAddr s = some m) :
    m ∈ addrs s := by
  induction s generalizing m with
  | nil => simp [maxAddr] at h
  | cons e rest ih =>
    simp only [maxAddr, Option.some.injEq] at h
    cases hrec : maxAddr rest with
    | none => rw [hrec] at h; simp at h; subst h; simp [addrs]
    | some m2 =>
      rw [hrec] at h; simp at h
      subst h
      split
      · simp [addrs]
      · have := ih m2 hrec
        simp [addrs] at this ⊢
        exact Or.inr this

theorem claimedPair_of_not_mem (s : AllocState) (a p : Nat)
    (h : a ∉ addrs s) : claimedPair s a p = false := by
  simp only [claimedPair, List.any_eq_false]
  intro e he
  simp only [Bool.and_eq_true, beq_iff_eq, not_and]
  intro hea
  exact fun _ => h (hea ▸ List.mem_map_of_mem (fun x => x.1) he)

theorem mem_addrs (s : AllocState) (a : Nat) :
    a ∈ addrs s ↔ ∃ e ∈ s, e.1 = a := by
  simp [addrs]

theorem sourceAddrForPort_provision (p : Nat) (d : TCPAddr) (s : AllocState)
    (a : Nat) (s' : AllocState) (hscan : scanClaim p d s = none)
    (h : sourceAddrForPort p d s = some (a, s')) :
    s' = s ++ [(a, [(p, d)])] ∧ isLoopback a = true ∧
      ((s = [] ∧ a = SourceStartIP) ∨ ∃ m, maxAddr s = some m ∧ a = succIP m) := by
  unfold sourceAddrForPort at h
  rw [hscan] at h
  cases hmax : maxAddr s with
  | none =>
    rw [hmax] at h
    simp only at h
    split at h
    · rename_i hloop
      simp only [Option.some.injEq, Prod.mk.injEq] at h
      obtain ⟨ha, hs'⟩ := h
      subst ha
      exact ⟨hs'.symm, hloop, Or.inl ⟨maxAddr_eq_none s hmax, rfl⟩⟩
    · simp at h
  | some m =>
    rw [hmax] at h
    simp only at h
    split at h
    · rename_i hloop
      simp only [Option.some.injEq, Prod.mk.injEq] at h
      obtain ⟨ha, hs'⟩ := h
      subst ha
      exact ⟨hs'.symm, hloop, Or.inr ⟨m, rfl, rfl⟩⟩
    · simp at h

theorem provision_fresh (s : AllocState) (m : Nat) (hmax : maxAddr s = some m)
    (hbound : ∀ e ∈ s, e.1 < 2 ^ 32) (hloop : isLoopback (succIP m) = true) :
    succIP m = m + 1 ∧ succIP m ∉ addrs s ∧ succIP m < 2 ^ 32 := by
  have hm : m < 2 ^ 32 := by
    obtain ⟨e, he, hem⟩ := (mem_addrs s m).mp (maxAddr_mem s m hmax)
    exact hem ▸ hbound e he
  by_cases h1 : m + 1 < 2 ^ 32
  · have heq : succIP m = m + 1 := Nat.mod_eq_of_lt h1
    refine ⟨heq, ?_, heq ▸ h1⟩
    intro hmem
    obtain ⟨e, he, hem⟩ := (mem_addrs s (succIP m)).mp hmem
    have := maxAddr_le s m hmax e he
    omega
  · have h2 : m + 1 = 2 ^ 32 := by omega
    have heq : succIP m = 0 := by unfold succIP; rw [h2]; simp
    rw [heq] at hloop
    simp [isLoopback] at hloop

theorem sourceAddrForPort_preserves (p : Nat) (d : TCPAddr) (s : AllocState)
    (a : Nat) (s' : AllocState) (hinv : AllocInv s)
    (h : sourceAddrForPort p d s = some (a, s')) :
    AllocInv s' ∧ claimedPair s a p = false := by
  obtain ⟨hnodup, hports, hbound⟩ := hinv
  cases hscan : scanClaim p d s with
  | some r =>
    have hscan2 : scanClaim p d s = some (a, s') := by
      unfold sourceAddrForPort at h
      rw [hscan] at h
      simp only [Option.some.injEq] at h
      rw [hscan, h]
    obtain ⟨pre, cs, post, h1, h2, h3, h4⟩ :=
      scanClaim_some_shape p d s a s' hscan2
    have hpfree : ∀ pc ∈ cs, ¬pc.1 = p := by
      intro pc hpc
      have := List.any_eq_false.mp (by rw [← h4]) pc hpc
      simpa using this
    have haddrs : addrs s = pre.map (fun e => e.1) ++ a :: post.map (fun e => e.1) := by
      subst h1; simp [addrs]
    have hnd := haddrs ▸ hnodup
    have hapre : a ∉ pre.map (fun e => e.1) := by
      have hdisj := (List.nodup_append.mp hnd).2.2
      intro hmem
      exact hdisj hmem (List.mem_cons_self a _)
    have hapost : a ∉ post.map (fun e => e.1) := by
      have hnd2 := (List.nodup_append.mp hnd).2.1
      exact (List.nodup_cons.mp hnd2).1
    constructor
    · refine ⟨?_, ?_, ?_⟩
      · have : addrs s' = addrs s := (scanClaim_addrs p d s a s' hscan2).1
        rw [this]; exact hnodup
      · intro e he
        rw [h2] at he
        rcases List.mem_append.mp he with hp | hp
        · exact hports e (by subst h1; exact List.mem_append.mpr (Or.inl hp))
        · rcases List.mem_cons.mp hp with hp | hp
          · subst hp
            simp only [List.map_append]
            rw [List.nodup_append]
            refine ⟨hports (a, cs) (by subst h1; simp), by simp, ?_⟩
            intro x hx
            simp only [List.map_cons, List.map_nil, List.mem_cons,
              List.not_mem_nil, or_false]
            intro hxp
            subst hxp
            obtain ⟨pc, hpc, hpc1⟩ := List.mem_map.mp hx
            exact hpfree pc hpc hpc1
          · exact hports e (by subst h1; simp [List.mem_append, hp])
      · intro e he
        rw [h2] at he
        rcases List.mem_append.mp he with hp | hp
        · exact hbound e (by subst h1; exact List.mem_append.mpr (Or.inl hp))
        · rcases List.mem_cons.mp hp with hp | hp
          · subst hp
            exact hbound (a, cs) (by subst h1; simp)
          · exact hbound e (by subst h1; simp [List.mem_append, hp])
    · subst h1
      simp only [claimedPair, List.any_eq_false]
      intro e he
      simp only [Bool.and_eq_true, beq_iff_eq, not_and]
      intro hea
      rcases List.mem_append.mp he with hp | hp
      · exact absurd (hea ▸ List.mem_map_of_mem (fun x : Nat × List (Nat × TCPAddr) => x.1) hp) hapre
      · rcases List.mem_cons.mp hp with hp | hp
        · subst hp
          simp [h4]
        · exact absurd (hea ▸ List.mem_map_of_mem (fun x : Nat × List (Nat × TCPAddr) => x.1) hp) hapost
  | none =>
    obtain ⟨hs', hloop, hcase⟩ := sourceAddrForPort_provision p d s a s' hscan h
    have hfresh : a ∉ addrs s ∧ a < 2 ^ 32 := by
      rcases hcase with ⟨hnil, ha⟩ | ⟨m, hmax, ha⟩
      · subst hnil; subst ha
        exact ⟨by simp [addrs], by norm_num [SourceStartIP]⟩
      · subst ha
        obtain ⟨_, hf, hb⟩ := provision_fresh s m hmax hbound hloop
        exact ⟨hf, hb⟩
    constructor
    · refine ⟨?_, ?_, ?_⟩
      · rw [hs']
        simp only [addrs, List.map_append, List.map_cons, List.map_nil]
        rw [List.nodup_append]
        exact ⟨hnodup, by simp, by
          intro x hx
          simp only [List.mem_cons, List.not_mem_nil, or_false]
          intro hxa
          exact hfresh.1 (hxa ▸ hx)⟩
      · intro e he
        rw [hs'] at he
        rcases List.mem_append.mp he with hp | hp
        · exact hports e hp
        · rcases List.mem_cons.mp hp with hp | hp
          · subst hp; simp
          · simp at hp
      · intro e he
        rw [hs'] at he
        rcases List.mem_append.mp he with hp | hp
        · exact hbound e hp
        · rcases List.mem_cons.mp hp with hp | hp
          · subst hp; exact hfresh.2
          · simp at hp
    · exact claimedPair_of_not_mem s a p hfresh.1

theorem claimedPair_eq_true (s : AllocState) (a p : Nat) :
    claimedPair s a p = true ↔ ∃ e ∈ s, e.1 = a ∧ ∃ pc ∈ e.2, pc.1 = p := by
  simp [claimedPair, List.any_eq_true]

theorem releasePort_addrs (a p : Nat) (s : AllocState) :
    addrs (releasePort a p s) = addrs s := by
  unfold releasePort addrs
  rw [List.map_map]
  apply List.map_congr_left
  intro e _
  by_cases h : e.1 = a
  · simp [h]
  · simp [h]

theorem releasePort_claim_self (a p : Nat) (s : AllocState) :
    claimedPair (releasePort a p s) a p = false := by
  rw [← Bool.not_eq_true, claimedPair_eq_true]
  rintro ⟨e, he, he1, pc, hpc, hpc1⟩
  obtain ⟨e0, he0, hfe⟩ := List.mem_map.mp he
  by_cases hc : e0.1 == a
  · rw [if_pos hc] at hfe
    subst hfe
    have := (List.mem_filter.mp hpc).2
    simp only [Bool.not_eq_true', beq_eq_false_iff_ne] at this
    exact this hpc1
  · rw [if_neg hc] at hfe
    subst hfe
    exact absurd he1 (by simpa using hc)

theorem releasePort_claim_other (a p : Nat) (s : AllocState) (a' p' : Nat)
    (h : a' ≠ a ∨ p' ≠ p) :
    claimedPair (releasePort a p s) a' p' = claimedPair s a' p' := by
  rw [Bool.eq_iff_iff, claimedPair_eq_true, claimedPair_eq_true]
  constructor
  · rintro ⟨e, he, he1, pc, hpc, hpc1⟩
    obtain ⟨e0, he0, hfe⟩ := List.mem_map.mp he
    by_cases hc : e0.1 == a
    · rw [if_pos hc] at hfe
      subst hfe
      exact ⟨e0, he0, he1, pc, (List.mem_filter.mp hpc).1, hpc1⟩
    · rw [if_neg hc] at hfe
      subst hfe
      exact ⟨e0, he0, he1, pc, hpc, hpc1⟩
  · rintro ⟨e, he, he1, pc, hpc, hpc1⟩
    by_cases hc : e.1 == a
    · have hap : a' = a := by rw [← he1]; simpa using hc
      have hpp : p' ≠ p := by
        rcases h with h | h
        · exact absurd hap h
        · exact h
      refine ⟨(e.1, e.2.filter (fun pc : Nat × TCPAddr => !(pc.1 == p))), ?_, he1,
        pc, ?_, hpc1⟩
      · have heq : (if e.1 == a then
              (e.1, e.2.filter (fun pc : Nat × TCPAddr => !(pc.1 == p))) else e)
            = (e.1, e.2.filter (fun pc : Nat × TCPAddr => !(pc.1 == p))) := if_pos hc
        exact heq ▸ List.mem_map_of_mem _ he
      · rw [List.mem_filter]
        exact ⟨hpc, by simp [hpc1, hpp]⟩
    · refine ⟨e, ?_, he1, pc, hpc, hpc1⟩
      have heq : (if e.1 == a then
            (e.1, e.2.filter (fun pc : Nat × TCPAddr => !(pc.1 == p))) else e) = e :=
        if_neg hc
      exact heq ▸ List.mem_map_of_mem _ he

theorem releasePort_inv (a p : Nat) (s : AllocState) (h : AllocInv s) :
    AllocInv (releasePort a p s) := by
  obtain ⟨h1, h2, h3⟩ := h
  refine ⟨by rw [releasePort_addrs]; exact h1, ?_, ?_⟩
  · intro e he
    obtain ⟨e0, he0, hfe⟩ := List.mem_map.mp he
    by_cases hc : e0.1 == a
    · rw [if_pos hc] at hfe
      subst hfe
      exact (h2 e0 he0).sublist
        ((List.filter_sublist e0.2).map (fun pc : Nat × TCPAddr => pc.1))
    · rw [if_neg hc] at hfe
      subst hfe
      exact h2 e0 he0
  · intro e he
    obtain ⟨e0, he0, hfe⟩ := List.mem_map.mp he
    by_cases hc : e0.1 == a
    · rw [if_pos hc] at hfe; subst hfe; exact h3 e0 he0
    · rw [if_neg hc] at hfe; subst hfe; exact h3 e0 he0

theorem applyOp_inv (op : AllocOp) (s : AllocState) (h : AllocInv s) :
    AllocInv (applyOp op s) := by
  cases op with
  | alloc p d =>
    simp only [applyOp]
    cases hs : sourceAddrForPort p d s with
    | none => exact h
    | some r =>
      obtain ⟨a, s'⟩ := r
      exact (sourceAddrForPort_preserves p d s a s' h hs).1
  | release a p => exact releasePort_inv a p s h

theorem allocInv_nil : AllocInv [] := ⟨List.nodup_nil, by simp, by simp⟩

theorem allocInv_runOps (ops : List AllocOp) : AllocInv (runOps ops) := by
  unfold runOps
  have hgen : ∀ s, AllocInv s →
      AllocInv (ops.foldl (fun s op => applyOp op s) s) := by
    induction ops with
    | nil => intro s hs; exact hs
    | cons op rest ih => intro s hs; exact ih _ (applyOp_inv op s hs)
  exact hgen [] allocInv_nil

theorem scanClaim_isSome (p : Nat) (d : TCPAddr) (s : AllocState)
    (h : ∃ e ∈ s, e.2.any (fun pc => pc.1 == p) = false) :
    scanClaim p d s ≠ none := by
  intro hn
  obtain ⟨e, he, hfree⟩ := h
  have := scanClaim_none_all_claimed p d s hn e he
  rw [hfree] at this
  exact Bool.false_ne_true this

/-- **C1** (allocation uniqueness): at every state of the allocator
reachable by any sequence of allocations and releases, the held source
addresses are pairwise distinct and each address's claim map holds each
port at most once (so no two live claims share a (SourceAddress, port)
pair), and `sourceAddrForPort` never hands out a pair that is already
live: whatever address it returns did not have the requested port claimed
beforehand. -/
theorem spec_C1_alloc_uniqueness (ops : List AllocOp) :
    (addrs (runOps ops)).Nodup
    ∧ (∀ e ∈ runOps ops, (e.2.map (fun pc => pc.1)).Nodup)
    ∧ (∀ p d a s', sourceAddrForPort p d (runOps ops) = some (a, s') →
        claimedPair (runOps ops) a p = false) := by
  obtain ⟨h1, h2, h3⟩ := allocInv_runOps ops
  exact ⟨h1, h2, fun p d a s' h =>
    (sourceAddrForPort_preserves p d (runOps ops) a s' ⟨h1, h2, h3⟩ h).2⟩

theorem spec_C1_alloc_uniqueness_witness :
    (addrs (runOps [AllocOp.alloc 80 ⟨5, 80⟩, AllocOp.alloc 80 ⟨5, 81⟩])).Nodup
    ∧ claimedPair (runOps [AllocOp.alloc 80 ⟨5, 80⟩, AllocOp.alloc 80 ⟨5, 81⟩])
        (succIP (succIP SourceStartIP)) 80 = false :=
  ⟨(spec_C1_alloc_uniqueness [AllocOp.alloc 80 ⟨5, 80⟩, AllocOp.alloc 80 ⟨5, 81⟩]).1,
   (spec_C1_alloc_uniqueness [AllocOp.alloc 80 ⟨5, 80⟩, AllocOp.alloc 80 ⟨5, 81⟩]).2.2
     80 ⟨5, 82⟩ (succIP (succIP SourceStartIP))
     (runOps [AllocOp.alloc 80 ⟨5, 80⟩, AllocOp.alloc 80 ⟨5, 81⟩] ++
       [(succIP (succIP SourceStartIP), [(80, ⟨5, 82⟩)])]) (by decide)⟩

/-- **C6** (allocation growth): an allocation against an empty table
provisions the designated starting address `127.2.2.1`; whenever an
allocation provisions a fresh address against a non-empty table, that
address is the numeric successor (`succIP`, i.e. +1 as a 32-bit value) of
the numerically highest address held so far; and no allocator operation
(allocation or release) ever removes an address from the source-address
table. -/
theorem spec_C6_alloc_growth :
    (∀ p d, sourceAddrForPort p d [] =
        some (SourceStartIP, [(SourceStartIP, [(p, d)])]))
    ∧ (∀ p d s a s', sourceAddrForPort p d s = some (a, s') → a ∉ addrs s →
        addrs s' = addrs s ++ [a]
        ∧ ((s = [] ∧ a = SourceStartIP)
            ∨ ∃ m, maxAddr s = some m ∧ (∀ e ∈ s, e.1 ≤ m) ∧ a = succIP m))
    ∧ (∀ op s, addrs s ⊆ addrs (applyOp op s)) := by
  refine ⟨?_, ?_, ?_⟩
  · intro p d
    rfl
  · intro p d s a s' h hfresh
    cases hscan : scanClaim p d s with
    | some r =>
      exfalso
      have hr : r = (a, s') := by
        unfold sourceAddrForPort at h
        rw [hscan] at h
        simpa using h
      subst hr
      exact hfresh (scanClaim_addrs p d s a s' hscan).2
    | none =>
      obtain ⟨hs', _, hcase⟩ := sourceAddrForPort_provision p d s a s' hscan h
      refine ⟨by rw [hs']; simp [addrs], ?_⟩
      rcases hcase with ⟨hnil, ha⟩ | ⟨m, hmax, ha⟩
      · exact Or.inl ⟨hnil, ha⟩
      · exact Or.inr ⟨m, hmax, maxAddr_le s m hmax, ha⟩
  · intro op s
    cases op with
    | release a p =>
      simp only [applyOp]
      rw [releasePort_addrs]
      exact fun x hx => hx
    | alloc p d =>
      simp only [applyOp]
      cases hs : sourceAddrForPort p d s with
      | none => exact fun x hx => hx
      | some r =>
        obtain ⟨a, s'⟩ := r
        cases hscan : scanClaim p d s with
        | some r2 =>
          have hr : r2 = (a, s') := by
            unfold sourceAddrForPort at hs
            rw [hscan] at hs
            simpa using hs
          subst hr
          rw [(scanClaim_addrs p d s a s' hscan).1]
          exact fun x hx => hx
        | none =>
          obtain ⟨hs', _, _⟩ := sourceAddrForPort_provision p d s a s' hscan hs
          rw [hs']
          simp only [addrs, List.map_append]
          exact List.subset_append_left _ _

theorem spec_C6_alloc_growth_witness :
    addrs ([(SourceStartIP, [(80, (⟨5, 80⟩ : TCPAddr))])] ++
        [(succIP SourceStartIP, [(80, ⟨5, 81⟩)])]) =
      addrs [(SourceStartIP, [(80, (⟨5, 80⟩ : TCPAddr))])] ++ [succIP SourceStartIP]
    ∧ (([(SourceStartIP, [(80, (⟨5, 80⟩ : TCPAddr))])] : AllocState) = []
          ∧ succIP SourceStartIP = SourceStartIP
        ∨ ∃ m, maxAddr [(SourceStartIP, [(80, (⟨5, 80⟩ : TCPAddr))])] = some m
            ∧ (∀ e ∈ ([(SourceStartIP, [(80, (⟨5, 80⟩ : TCPAddr))])] : AllocState),
                  e.1 ≤ m)
            ∧ succIP SourceStartIP = succIP m) :=
  spec_C6_alloc_growth.2.1 80 ⟨5, 81⟩ [(SourceStartIP, [(80, ⟨5, 80⟩)])]
    (succIP SourceStartIP)
    ([(SourceStartIP, [(80, ⟨5, 80⟩)])] ++ [(succIP SourceStartIP, [(80, ⟨5, 81⟩)])])
    (by decide) (by decide)

/-- **C7** (first-fit reuse after release): the release performed by
`removeContainer` removes exactly the released (address, port) claim —
the address list is untouched, the released pair is gone, every other
pair is unchanged — and whenever at least one held source address does
not have the requested port claimed, `sourceAddrForPort` claims the port
on an existing address and provisions no new address. -/
theorem spec_C7_first_fit_reuse :
    (∀ a p s, addrs (releasePort a p s) = addrs s)
    ∧ (∀ a p s, claimedPair (releasePort a p s) a p = false)
    ∧ (∀ a p s a' p', a' ≠ a ∨ p' ≠ p →
        claimedPair (releasePort a p s) a' p' = claimedPair s a' p')
    ∧ (∀ p d s, (∃ e ∈ s, e.2.any (fun pc => pc.1 == p) = false) →
        ∃ a s', sourceAddrForPort p d s = some (a, s')
          ∧ a ∈ addrs s ∧ addrs s' = addrs s) := by
  refine ⟨releasePort_addrs, releasePort_claim_self, releasePort_claim_other, ?_⟩
  intro p d s hex
  cases hscan : scanClaim p d s with
  | none => exact absurd hscan (scanClaim_isSome p d s hex)
  | some r =>
    obtain ⟨a, s'⟩ := r
    refine ⟨a, s', ?_, (scanClaim_addrs p d s a s' hscan).2,
      (scanClaim_addrs p d s a s' hscan).1⟩
    unfold sourceAddrForPort
    rw [hscan]

theorem spec_C7_first_fit_reuse_witness :
    claimedPair
        (releasePort SourceStartIP 80
          [(SourceStartIP, [(80, ⟨5, 80⟩), (81, (⟨5, 81⟩ : TCPAddr))])])
        SourceStartIP 81 =
      claimedPair [(SourceStartIP, [(80, ⟨5, 80⟩), (81, (⟨5, 81⟩ : TCPAddr))])]
        SourceStartIP 81
    ∧ ∃ a s', sourceAddrForPort 80 ⟨5, 82⟩
          (releasePort SourceStartIP 80
            [(SourceStartIP, [(80, ⟨5, 80⟩), (81, (⟨5, 81⟩ : TCPAddr))])]) =
          some (a, s')
        ∧ a ∈ addrs (releasePort SourceStartIP 80
            [(SourceStartIP, [(80, ⟨5, 80⟩), (81, (⟨5, 81⟩ : TCPAddr))])])
        ∧ addrs s' = addrs (releasePort SourceStartIP 80
            [(SourceStartIP, [(80, ⟨5, 80⟩), (81, (⟨5, 81⟩ : TCPAddr))])]) :=
  ⟨spec_C7_first_fit_reuse.2.2.1 SourceStartIP 80
      [(SourceStartIP, [(80, ⟨5, 80⟩), (81, ⟨5, 81⟩)])] SourceStartIP 81
      (Or.inr (by decide)),
   spec_C7_first_fit_reuse.2.2.2 80 ⟨5, 82⟩
      (releasePort SourceStartIP 80
        [(SourceStartIP, [(80, ⟨5, 80⟩), (81, ⟨5, 81⟩)])])
      ⟨(SourceStartIP, [(81, ⟨5, 81⟩)]), by decide, by decide⟩⟩

/-! ## DNS-name sanitizer lemmas -/

theorem replRuns_allowed (l : List Char) :
    ∀ b c, c ∈ replRuns b l → isDnsAllowed c = true := by
  induction l with
  | nil => intro b c hc; simp [replRuns] at hc
  | cons c0 cs ih =>
    intro b c hc
    by_cases ha : isDnsAllowed c0 = true
    · rw [replRuns, if_pos ha] at hc
      rcases List.mem_cons.mp hc with hc | hc
      · exact hc ▸ ha
      · exact ih false c hc
    · rw [replRuns, if_neg ha] at hc
      by_cases hb : b
      · subst hb
        rw [if_pos rfl] at hc
        exact ih true c hc
      · have : b = false := by simpa using hb
        subst this
        simp only [Bool.false_eq_true, if_false] at hc
        rcases List.mem_cons.mp hc with hc | hc
        · subst hc; decide
        · exact ih true c hc

theorem trimL_mem (l : List Char) : ∀ c ∈ trimL l, c ∈ l := by
  induction l with
  | nil => intro c hc; simp [trimL] at hc
  | cons c0 cs ih =>
    intro c hc
    by_cases h : c0 = '-'
    · rw [trimL, if_pos (by simp [h])] at hc
      exact List.mem_cons.mpr (Or.inr (ih c hc))
    · rw [trimL, if_neg (by simp [h])] at hc
      exact hc

theorem trimR_mem (l : List Char) : ∀ c ∈ trimR l, c ∈ l := by
  induction l with
  | nil => intro c hc; simp [trimR] at hc
  | cons c0 cs ih =>
    intro c hc
    rw [trimR] at hc
    cases htr : trimR cs with
    | nil =>
      rw [htr] at hc
      by_cases h : c0 = '-'
      · rw [if_pos (by simp [h])] at hc; simp at hc
      · rw [if_neg (by simp [h])] at hc
        simp only [List.mem_singleton] at hc
        exact List.mem_cons.mpr (Or.inl hc)
    | cons x xs =>
      rw [htr] at hc
      rcases List.mem_cons.mp hc with hc | hc
      · exact List.mem_cons.mpr (Or.inl hc)
      · exact List.mem_cons.mpr (Or.inr (ih c (htr ▸ hc)))

theorem collapseH_mem (l : List Char) : ∀ b, ∀ c ∈ collapseH b l, c ∈ l := by
  induction l with
  | nil => intro b c hc; simp [collapseH] at hc
  | cons c0 cs ih =>
    intro b c hc
    by_cases h : c0 = '-'
    · rw [collapseH, if_pos (by simp [h])] at hc
      by_cases hb : b
      · subst hb
        rw [if_pos rfl] at hc
        exact List.mem_cons.mpr (Or.inr (ih true c hc))
      · have hb0 : b = false := by simpa using hb
        subst hb0
        simp only [Bool.false_eq_true, if_false] at hc
        rcases List.mem_cons.mp hc with hc | hc
        · exact List.mem_cons.mpr (Or.inl (hc.trans h.symm))
        · exact List.mem_cons.mpr (Or.inr (ih true c hc))
    · rw [collapseH, if_neg (by simp [h])] at hc
      rcases List.mem_cons.mp hc with hc | hc
      · exact List.mem_cons.mpr (Or.inl hc)
      · exact List.mem_cons.mpr (Or.inr (ih false c hc))

theorem collapseH_true_head (l : List Char) :
    (collapseH true l).head? ≠ some '-' := by
  induction l with
  | nil => simp [collapseH]
  | cons c0 cs ih =>
    by_cases h : c0 = '-'
    · rw [collapseH, if_pos (by simp [h]), if_pos rfl]
      exact ih
    · rw [collapseH, if_neg (by simp [h])]
      simp [h]

theorem noDouble_collapseH (l : List Char) :
    ∀ b, noDouble (collapseH b l) = true := by
  induction l with
  | nil => intro b; simp [collapseH, noDouble]
  | cons c0 cs ih =>
    intro b
    by_cases h : c0 = '-'
    · subst h
      rw [collapseH, if_pos (show (('-' : Char) == '-') = true by decide)]
      by_cases hb : b
      · subst hb; rw [if_pos rfl]; exact ih true
      · have hb0 : b = false := by simpa using hb
        subst hb0
        simp only [Bool.false_eq_true, if_false]
        cases hX : collapseH true cs with
        | nil => simp [noDouble]
        | cons x xs =>
          have hx : ¬x = '-' := by
            have := collapseH_true_head cs
            rw [hX] at this
            simpa using this
          have hnd : noDouble (x :: xs) = true := hX ▸ ih true
          simp [noDouble, hx, hnd]
    · rw [collapseH, if_neg (by simp [h])]
      cases hX : collapseH false cs with
      | nil => simp [noDouble]
      | cons x xs =>
        have hnd : noDouble (x :: xs) = true := hX ▸ ih false
        simp [noDouble, h, hnd]

theorem trimL_head (l : List Char) : (trimL l).head? ≠ some '-' := by
  induction l with
  | nil => simp [trimL]
  | cons c0 cs ih =>
    by_cases h : c0 = '-'
    · rw [trimL, if_pos (by simp [h])]; exact ih
    · rw [trimL, if_neg (by simp [h])]; simp [h]

theorem trimR_head (l : List Char) (h : l.head? ≠ some '-') :
    (trimR l).head? ≠ some '-' := by
  cases l with
  | nil => simp [trimR]
  | cons c0 cs =>
    have hc0 : ¬c0 = '-' := by simpa using h
    rw [trimR]
    cases trimR cs with
    | nil => rw [if_neg (by simp [hc0])]; simp [hc0]
    | cons x xs => simp [hc0]

theorem lastChar_cons (c : Char) (l : List Char) (h : l ≠ []) :
    lastChar (c :: l) = lastChar l := by
  cases l with
  | nil => exact absurd rfl h
  | cons x xs => rfl

theorem lastChar_of_ne_nil (l : List Char) (h : l ≠ []) :
    ∃ d, lastChar l = some d ∧ d ∈ l := by
  induction l with
  | nil => exact absurd rfl h
  | cons c cs ih =>
    cases hcs : cs with
    | nil => exact ⟨c, rfl, by simp⟩
    | cons x xs =>
      obtain ⟨d, hd, hdm⟩ := ih (by simp [hcs])
      subst hcs
      exact ⟨d, by rw [lastChar_cons c _ (by simp)]; exact hd,
        List.mem_cons.mpr (Or.inr hdm)⟩

theorem trimR_last (l : List Char) : lastChar (trimR l) ≠ some '-' := by
  induction l with
  | nil => simp [trimR, lastChar]
  | cons c0 cs ih =>
    rw [trimR]
    cases htr : trimR cs with
    | nil =>
      by_cases h : c0 = '-'
      · rw [if_pos (by simp [h])]; simp [lastChar]
      · rw [if_neg (by simp [h])]; simpa [lastChar] using h
    | cons x xs =>
      rw [lastChar_cons c0 _ (by simp)]
      rw [htr] at ih
      exact ih

theorem collapseH_ne_nil (l : List Char) (d : Char) (hd : d ∈ l)
    (hdh : ¬d = '-') : ∀ b, collapseH b l ≠ [] := by
  induction l with
  | nil => simp at hd
  | cons c0 cs ih =>
    intro b
    by_cases h : c0 = '-'
    · have hdcs : d ∈ cs := by
        rcases List.mem_cons.mp hd with hx | hx
        · exact absurd (hx.trans h) hdh
        · exact hx
      rw [collapseH, if_pos (by simp [h])]
      by_cases hb : b
      · subst hb; rw [if_pos rfl]; exact ih hdcs true
      · have hb0 : b = false := by simpa using hb
        subst hb0
        simp
    · rw [collapseH, if_neg (by simp [h])]
      simp

theorem collapseH_last (l : List Char) (h : lastChar l ≠ some '-') :
    ∀ b, lastChar (collapseH b l) ≠ some '-' := by
  induction l with
  | nil => intro b; simp [collapseH, lastChar]
  | cons c0 cs ih =>
    intro b
    cases hcs : cs with
    | nil =>
      subst hcs
      have hc0 : ¬c0 = '-' := by simpa [lastChar] using h
      rw [collapseH, if_neg (by simp [hc0])]
      simpa [collapseH, lastChar] using hc0
    | cons x xs =>
      subst hcs
      have hlast : lastChar (x :: xs) ≠ some '-' := by
        rw [lastChar_cons c0 _ (by simp)] at h
        exact h
      obtain ⟨d, hd, hdm⟩ := lastChar_of_ne_nil (x :: xs) (by simp)
      have hdh : ¬d = '-' := by
        intro hdd
        exact hlast (by rw [hd, hdd])
      by_cases hc : c0 = '-'
      · rw [collapseH, if_pos (by simp [hc])]
        by_cases hb : b
        · subst hb; rw [if_pos rfl]; exact ih hlast true
        · have hb0 : b = false := by simpa using hb
          subst hb0
          simp only [Bool.false_eq_true, if_false]
          rw [lastChar_cons '-' _ (collapseH_ne_nil (x :: xs) d hdm hdh true)]
          exact ih hlast true
      · rw [collapseH, if_neg (by simp [hc])]
        rw [lastChar_cons c0 _ (collapseH_ne_nil (x :: xs) d hdm hdh false)]
        exact ih hlast false

theorem collapseH_false_head (l : List Char) (h : l.head? ≠ some '-') :
    (collapseH false l).head? ≠ some '-' := by
  cases l with
  | nil => simp [collapseH]
  | cons c0 cs =>
    have hc0 : ¬c0 = '-' := by simpa using h
    rw [collapseH, if_neg (by simp [hc0])]
    simp [hc0]

/-- **C5** counterexample: the claim describes the sanitizer as
*stripping* every character outside `[a-z0-9.-]`, yet also demands
`"api_server-1" ↦ "api-server-1"`.  On that very input, stripping (the
claim's general rule, `dnsNameSpecStrip`) yields `"apiserver-1"`, while
the code (`dnsNameFromContainerName`, which *replaces* each run of
disallowed characters with a hyphen) yields `"api-server-1"`: the claim's
general rule contradicts both the code and the claim's own example. -/
theorem spec_C5_counterexample :
    dnsNameSpecStrip "api_server-1" = "apiserver-1"
    ∧ dnsNameFromContainerName "api_server-1" = "api-server-1"
    ∧ dnsNameSpecStrip "api_server-1" ≠ dnsNameFromContainerName "api_server-1" :=
  ⟨rfl, rfl, by decide⟩

/-- **C5** amended: for every container name, `dnsNameFromContainerName`
*replaces each maximal run of characters outside `[a-z0-9.-]` with a
single hyphen* (case-sensitively — uppercase letters count as disallowed
and are replaced, not folded), trims leading/trailing hyphens, and
collapses consecutive hyphens into one; consequently every output
character lies in `[a-z0-9.-]`, the output never contains two adjacent
hyphens and never starts or ends with a hyphen.  In particular
`"api_server-1" ↦ "api-server-1"`, `"--x--" ↦ "x"`, and `"####" ↦ ""`
(so derivation fails on a name with no allowed characters). -/
theorem spec_C5_amended :
    dnsNameFromContainerName "api_server-1" = "api-server-1"
    ∧ dnsNameFromContainerName "--x--" = "x"
    ∧ dnsNameFromContainerName "####" = ""
    ∧ dnsNameFromContainerName "MyApp" = "y-pp"
    ∧ dnsNameFromContainerName "a__b" = "a-b"
    ∧ (∀ name : String, ∀ ch ∈ (dnsNameFromContainerName name).data,
        isDnsAllowed ch = true)
    ∧ (∀ name : String, noDouble (dnsNameFromContainerName name).data = true)
    ∧ (∀ name : String,
        (dnsNameFromContainerName name).data.head? ≠ some '-'
        ∧ lastChar (dnsNameFromContainerName name).data ≠ some '-') := by
  refine ⟨rfl, rfl, rfl, rfl, rfl, ?_, ?_, ?_⟩
  · intro name ch hch
    have h1 := collapseH_mem _ false ch hch
    have h2 := trimR_mem _ ch h1
    have h3 := trimL_mem _ ch h2
    exact replRuns_allowed name.data false ch h3
  · intro name
    exact noDouble_collapseH _ false
  · intro name
    constructor
    · exact collapseH_false_head _ (trimR_head _ (trimL_head _))
    · exact collapseH_last _ (trimR_last _) false

theorem spec_C5_amended_witness :
    isDnsAllowed 'a' = true ∧
      noDouble (dnsNameFromContainerName "api_server-1").data = true :=
  ⟨spec_C5_amended.2.2.2.2.2.1 "api_server-1" 'a' (by decide),
   spec_C5_amended.2.2.2.2.2.2.1 "api_server-1"⟩

/-! ## Listener construction lemmas -/

theorem lfcp_ok_shape (fe dip : Nat) (c : ContainerInfo) (p : APIPort)
    (sa : AllocState) (l : Listener) (sa' : AllocState)
    (h : ListenerFromContainerAndPort fe dip c p sa = .ok l sa') :
    ∃ destIP, ((p.ip = .unspecified ∧ destIP = dip) ∨ p.ip = .addr destIP)
      ∧ l.dest = ⟨destIP, p.publicPort⟩
      ∧ l.dnsName = dnsNameFromContainerName c.name
      ∧ l.src.port = (if p.publicPort ≥ fe then p.privatePort else p.publicPort)
      ∧ sourceAddrForPort l.src.port l.dest sa = some (l.src.ip, sa') := by
  simp only [ListenerFromContainerAndPort] at h
  split at h
  · simp at h
  split at h
  · simp at h
  split at h
  · simp at h
  split at h
  · simp at h
  · -- p.ip = .unspecified
    rename_i hip
    split at h
    · rename_i a sa2 halloc
      simp only [LfcpResult.ok.injEq] at h
      obtain ⟨hl, hsa⟩ := h
      subst hl
      subst hsa
      exact ⟨dip, Or.inl ⟨hip, rfl⟩, rfl, rfl, rfl, halloc⟩
    · simp at h
  · -- p.ip = .addr i
    rename_i i hip
    split at h
    · rename_i a sa2 halloc
      simp only [LfcpResult.ok.injEq] at h
      obtain ⟨hl, hsa⟩ := h
      subst hl
      subst hsa
      exact ⟨i, Or.inr hip, rfl, rfl, rfl, halloc⟩
    · simp at h

/-- **C4** (port-selection policy): whenever `ListenerFromContainerAndPort`
succeeds, the destination port is the container's public port, and the
listening source port is the container-private port when the public port
is at or above `firstEphemeralPort` and the public port itself otherwise;
concretely with `firstEphemeralPort = 49152`, private 8080 / public 51234
gives source port 8080, and private 8080 / public 32768 gives source port
32768. -/
theorem spec_C4_port_selection (fe dip : Nat) (c : ContainerInfo) (p : APIPort)
    (sa : AllocState) (l : Listener) (sa' : AllocState)
    (h : ListenerFromContainerAndPort fe dip c p sa = .ok l sa') :
    l.dest.port = p.publicPort
    ∧ (p.publicPort ≥ fe → l.src.port = p.privatePort)
    ∧ (p.publicPort < fe → l.src.port = p.publicPort)
    ∧ okSrcPort (ListenerFromContainerAndPort 49152 9 ⟨"cid0", "api", []⟩
        ⟨8080, 51234, .addr 7⟩ []) = some 8080
    ∧ okSrcPort (ListenerFromContainerAndPort 49152 9 ⟨"cid0", "api", []⟩
        ⟨8080, 32768, .addr 7⟩ []) = some 32768 := by
  obtain ⟨destIP, _, hdest, _, hsrc, _⟩ := lfcp_ok_shape fe dip c p sa l sa' h
  refine ⟨by rw [hdest], ?_, ?_, rfl, rfl⟩
  · intro hge
    rw [hsrc, if_pos hge]
  · intro hlt
    rw [hsrc, if_neg (by omega)]

theorem spec_C4_port_selection_witness :
    (Listener.mk "api" ⟨SourceStartIP, 8080⟩ ⟨7, 51234⟩).dest.port = 51234
    ∧ (Listener.mk "api" ⟨SourceStartIP, 8080⟩ ⟨7, 51234⟩).src.port = 8080 := by
  have h := spec_C4_port_selection 49152 9 ⟨"cid0", "api", []⟩
    ⟨8080, 51234, .addr 7⟩ [] ⟨"api", ⟨SourceStartIP, 8080⟩, ⟨7, 51234⟩⟩
    [(SourceStartIP, [(8080, ⟨7, 51234⟩)])] rfl
  refine ⟨h.1, h.2.1 ?_⟩
  decide

/-- **C8** (construction failure semantics): `ListenerFromContainerAndPort`
returns an error when the container has no name, when the public or
private port is zero, or when the derived DNS name is empty; and whenever
it returns an error, the reconciler's `addContainer` loop body leaves the
whole state — registry, DNS zone and allocator — unchanged (nothing is
started, registered, published or claimed). -/
theorem spec_C8_construction_failure (fe dip : Nat) (c : ContainerInfo)
    (p : APIPort) (sa : AllocState) (st : SysState) :
    (c.name = "" → isErr (ListenerFromContainerAndPort fe dip c p sa) = true)
    ∧ (p.publicPort = 0 ∨ p.privatePort = 0 →
        isErr (ListenerFromContainerAndPort fe dip c p sa) = true)
    ∧ (dnsNameFromContainerName c.name = "" →
        isErr (ListenerFromContainerAndPort fe dip c p sa) = true)
    ∧ (∀ m, ListenerFromContainerAndPort fe dip c p st.sourceAddrs = .err m →
        addPort fe dip c st p = some st) := by
  refine ⟨?_, ?_, ?_, ?_⟩
  · intro hname
    simp [ListenerFromContainerAndPort, hname, isErr]
  · intro hports
    by_cases hname : c.name = ""
    · simp [ListenerFromContainerAndPort, hname, isErr]
    · simp [ListenerFromContainerAndPort, hname, hports, isErr]
  · intro hdns
    by_cases hname : c.name = ""
    · simp [ListenerFromContainerAndPort, hname, isErr]
    · by_cases hports : p.publicPort = 0 ∨ p.privatePort = 0
      · simp [ListenerFromContainerAndPort, hname, hports, isErr]
      · simp [ListenerFromContainerAndPort, hname, hports, hdns, isErr]
  · intro m herr
    by_cases hkey : keyPresent (containerPortKey c p) st
    · simp [addPort, hkey]
    · simp [addPort, hkey, herr]

theorem spec_C8_construction_failure_witness :
    isErr (ListenerFromContainerAndPort 49152 9 ⟨"cid1", "", []⟩
        ⟨80, 80, .addr 7⟩ []) = true
    ∧ isErr (ListenerFromContainerAndPort 49152 9 ⟨"cid1", "web", []⟩
        ⟨80, 0, .addr 7⟩ []) = true
    ∧ isErr (ListenerFromContainerAndPort 49152 9 ⟨"cid1", "###", []⟩
        ⟨80, 80, .addr 7⟩ []) = true
    ∧ addPort 49152 9 ⟨"cid1", "", []⟩ sysInit ⟨80, 80, .addr 7⟩ = some sysInit :=
  ⟨(spec_C8_construction_failure 49152 9 ⟨"cid1", "", []⟩ ⟨80, 80, .addr 7⟩ []
      sysInit).1 rfl,
   (spec_C8_construction_failure 49152 9 ⟨"cid1", "web", []⟩ ⟨80, 0, .addr 7⟩ []
      sysInit).2.1 (Or.inl rfl),
   (spec_C8_construction_failure 49152 9 ⟨"cid1", "###", []⟩ ⟨80, 80, .addr 7⟩ []
      sysInit).2.2.1 rfl,
   (spec_C8_construction_failure 49152 9 ⟨"cid1", "", []⟩ ⟨80, 80, .addr 7⟩
      sysInit.sourceAddrs sysInit).2.2.2 _ rfl⟩

/-! ## Reconciler lemmas -/

theorem lfcp_isErr_state_indep (fe dip : Nat) (c : ContainerInfo) (p : APIPort)
    (sa sb : AllocState) :
    isErr (ListenerFromContainerAndPort fe dip c p sa) =
      isErr (ListenerFromContainerAndPort fe dip c p sb) := by
  by_cases h1 : c.name = ""
  · simp [ListenerFromContainerAndPort, h1]
  by_cases h2 : p.publicPort = 0 ∨ p.privatePort = 0
  · simp [ListenerFromContainerAndPort, h1, h2]
  by_cases h3 : dnsNameFromContainerName c.name = ""
  · simp [ListenerFromContainerAndPort, h1, h2, h3]
  cases hip : p.ip with
  | unresolvable => simp [ListenerFromContainerAndPort, h1, h2, h3, hip]
  | unspecified =>
    simp only [ListenerFromContainerAndPort, h1, h2, h3, hip]
    cases ha : sourceAddrForPort
        (if p.publicPort ≥ fe then p.privatePort else p.publicPort)
        ⟨dip, p.publicPort⟩ sa with
    | none =>
      cases hb : sourceAddrForPort
          (if p.publicPort ≥ fe then p.privatePort else p.publicPort)
          ⟨dip, p.publicPort⟩ sb with
      | none => simp [isErr]
      | some rb => obtain ⟨b, sb'⟩ := rb; simp [isErr]
    | some ra =>
      obtain ⟨a, sa'⟩ := ra
      cases hb : sourceAddrForPort
          (if p.publicPort ≥ fe then p.privatePort else p.publicPort)
          ⟨dip, p.publicPort⟩ sb with
      | none => simp [isErr]
      | some rb => obtain ⟨b, sb'⟩ := rb; simp [isErr]
  | addr i =>
    simp only [ListenerFromContainerAndPort, h1, h2, h3, hip]
    cases ha : sourceAddrForPort
        (if p.publicPort ≥ fe then p.privatePort else p.publicPort)
        ⟨i, p.publicPort⟩ sa with
    | none =>
      cases hb : sourceAddrForPort
          (if p.publicPort ≥ fe then p.privatePort else p.publicPort)
          ⟨i, p.publicPort⟩ sb with
      | none => simp [isErr]
      | some rb => obtain ⟨b, sb'⟩ := rb; simp [isErr]
    | some ra =>
      obtain ⟨a, sa'⟩ := ra
      cases hb : sourceAddrForPort
          (if p.publicPort ≥ fe then p.privatePort else p.publicPort)
          ⟨i, p.publicPort⟩ sb with
      | none => simp [isErr]
      | some rb => obtain ⟨b, sb'⟩ := rb; simp [isErr]

theorem addPort_keyPresent_mono (fe dip : Nat) (c : ContainerInfo)
    (st st2 : SysState) (p : APIPort) (h : addPort fe dip c st p = some st2)
    (k : String) (hk : keyPresent k st = true) : keyPresent k st2 = true := by
  unfold addPort at h
  by_cases hkey : keyPresent (containerPortKey c p) st = true
  · rw [if_pos hkey] at h
    simp only [Option.some.injEq] at h
    exact h ▸ hk
  · rw [if_neg hkey] at h
    cases hres : ListenerFromContainerAndPort fe dip c p st.sourceAddrs with
    | err m =>
      rw [hres] at h
      simp only [Option.some.injEq] at h
      exact h ▸ hk
    | fatal => rw [hres] at h; simp at h
    | ok l sa' =>
      rw [hres] at h
      simp only [Option.some.injEq] at h
      subst h
      simp only [keyPresent, List.any_append] at hk ⊢
      rw [hk]
      rfl

theorem addPort_registers_or_err (fe dip : Nat) (c : ContainerInfo)
    (st st2 : SysState) (p : APIPort) (h : addPort fe dip c st p = some st2) :
    keyPresent (containerPortKey c p) st2 = true
      ∨ isErr (ListenerFromContainerAndPort fe dip c p st.sourceAddrs) = true := by
  unfold addPort at h
  by_cases hkey : keyPresent (containerPortKey c p) st = true
  · rw [if_pos hkey] at h
    simp only [Option.some.injEq] at h
    exact Or.inl (h ▸ hkey)
  · rw [if_neg hkey] at h
    cases hres : ListenerFromContainerAndPort fe dip c p st.sourceAddrs with
    | err m => exact Or.inr rfl
    | fatal => rw [hres] at h; simp at h
    | ok l sa' =>
      rw [hres] at h
      simp only [Option.some.injEq] at h
      subst h
      refine Or.inl ?_
      simp [keyPresent, List.any_append]

theorem foldAddPort_keyPresent_mono (fe dip : Nat) (c : ContainerInfo)
    (ps : List APIPort) :
    ∀ st st', List.foldlM (addPort fe dip c) st ps = some st' →
      ∀ k, keyPresent k st = true → keyPresent k st' = true := by
  induction ps with
  | nil =>
    intro st st' h k hk
    simp only [List.foldlM_nil, Option.pure_def, Option.some.injEq] at h
    exact h ▸ hk
  | cons p rest ih =>
    intro st st' h k hk
    simp only [List.foldlM_cons] at h
    cases hstep : addPort fe dip c st p with
    | none => rw [hstep] at h; simp at h
    | some st1 =>
      rw [hstep] at h
      simp only [Option.bind_eq_bind, Option.some_bind] at h
      exact ih st1 st' h k (addPort_keyPresent_mono fe dip c st st1 p hstep k hk)

theorem addContainer_ports_settled (fe dip : Nat) (c : ContainerInfo)
    (sb : AllocState) :
    ∀ ps st st', List.foldlM (addPort fe dip c) st ps = some st' →
      ∀ p ∈ ps, keyPresent (containerPortKey c p) st' = true
        ∨ isErr (ListenerFromContainerAndPort fe dip c p sb) = true := by
  intro ps
  induction ps with
  | nil => intro st st' h p hp; simp at hp
  | cons q rest ih =>
    intro st st' h p hp
    simp only [List.foldlM_cons] at h
    cases hstep : addPort fe dip c st q with
    | none => rw [hstep] at h; simp at h
    | some st1 =>
      rw [hstep] at h
      simp only [Option.bind_eq_bind, Option.some_bind] at h
      rcases List.mem_cons.mp hp with hp | hp
      · subst hp
        rcases addPort_registers_or_err fe dip c st st1 p hstep with hk | he
        · exact Or.inl (foldAddPort_keyPresent_mono fe dip c rest st1 st' h _ hk)
        · exact Or.inr (by rw [← lfcp_isErr_state_indep fe dip c p st.sourceAddrs sb]; exact he)
      · exact ih st1 st' h p hp

theorem addPort_skip_present (fe dip : Nat) (c : ContainerInfo) (st : SysState)
    (p : APIPort) (hk : keyPresent (containerPortKey c p) st = true) :
    addPort fe dip c st p = some st := by
  simp [addPort, hk]

theorem addPort_skip_err (fe dip : Nat) (c : ContainerInfo) (st : SysState)
    (p : APIPort)
    (he : isErr (ListenerFromContainerAndPort fe dip c p st.sourceAddrs) = true) :
    addPort fe dip c st p = some st := by
  unfold addPort
  by_cases hkey : keyPresent (containerPortKey c p) st = true
  · rw [if_pos hkey]
  · rw [if_neg hkey]
    cases hres : ListenerFromContainerAndPort fe dip c p st.sourceAddrs with
    | err m => rfl
    | fatal => rw [hres] at he; simp [isErr] at he
    | ok l sa' => rw [hres] at he; simp [isErr] at he

theorem foldAddPort_noop (fe dip : Nat) (c : ContainerInfo) (st : SysState) :
    ∀ ps, (∀ p ∈ ps, keyPresent (containerPortKey c p) st = true
        ∨ isErr (ListenerFromContainerAndPort fe dip c p st.sourceAddrs) = true) →
      List.foldlM (addPort fe dip c) st ps = some st := by
  intro ps
  induction ps with
  | nil => intro _; rfl
  | cons q rest ih =>
    intro hall
    simp only [List.foldlM_cons]
    have hq : addPort fe dip c st q = some st := by
      rcases hall q (List.mem_cons_self q rest) with hk | he
      · exact addPort_skip_present fe dip c st q hk
      · exact addPort_skip_err fe dip c st q he
    rw [hq]
    simp only [Option.bind_eq_bind, Option.some_bind]
    exact ih (fun p hp => hall p (List.mem_cons.mpr (Or.inr hp)))

theorem addPort_regWF (fe dip : Nat) (c : ContainerInfo) (st st2 : SysState)
    (p : APIPort) (h : addPort fe dip c st p = some st2) (hwf : RegWF st) :
    RegWF st2 := by
  unfold addPort at h
  by_cases hkey : keyPresent (containerPortKey c p) st = true
  · rw [if_pos hkey] at h
    simp only [Option.some.injEq] at h
    exact h ▸ hwf
  · rw [if_neg hkey] at h
    cases hres : ListenerFromContainerAndPort fe dip c p st.sourceAddrs with
    | err m =>
      rw [hres] at h
      simp only [Option.some.injEq] at h
      exact h ▸ hwf
    | fatal => rw [hres] at h; simp at h
    | ok l sa' =>
      rw [hres] at h
      simp only [Option.some.injEq] at h
      subst h
      unfold RegWF at hwf ⊢
      rw [List.pairwise_append]
      refine ⟨hwf, by simp, ?_⟩
      intro e he x hx
      simp only [List.mem_singleton] at hx
      subst hx
      intro heq
      apply hkey
      simp only [keyPresent, List.any_eq_true]
      exact ⟨e, he, by simp [heq]⟩

theorem foldAddPort_regWF (fe dip : Nat) (c : ContainerInfo) :
    ∀ ps st st', List.foldlM (addPort fe dip c) st ps = some st' →
      RegWF st → RegWF st' := by
  intro ps
  induction ps with
  | nil =>
    intro st st' h hwf
    simp only [List.foldlM_nil, Option.pure_def, Option.some.injEq] at h
    exact h ▸ hwf
  | cons q rest ih =>
    intro st st' h hwf
    simp only [List.foldlM_cons] at h
    cases hstep : addPort fe dip c st q with
    | none => rw [hstep] at h; simp at h
    | some st1 =>
      rw [hstep] at h
      simp only [Option.bind_eq_bind, Option.some_bind] at h
      exact ih st1 st' h (addPort_regWF fe dip c st st1 q hstep hwf)

/-- **C2** (idempotent reconciliation): if `addContainer` succeeds,
running it a second time for the same container with unchanged port
metadata changes nothing at all — every key is already registered (or
deterministically fails construction again), so no new Listener,
allocation, or hostname publication occurs — and the registry keeps at
most one Listener per (container, private-port) key. -/
theorem spec_C2_idempotent_reconciliation (fe dip : Nat) (c : ContainerInfo)
    (st st' : SysState) (h : addContainer fe dip c st = some st') :
    addContainer fe dip c st' = some st' ∧ (RegWF st → RegWF st') := by
  constructor
  · unfold addContainer at h ⊢
    apply foldAddPort_noop
    intro p hp
    exact addContainer_ports_settled fe dip c st'.sourceAddrs c.ports st st' h p hp
  · intro hwf
    unfold addContainer at h
    exact foldAddPort_regWF fe dip c c.ports st st' h hwf

theorem spec_C2_idempotent_reconciliation_witness :
    addContainer 49152 9 idemCont idemState = some idemState ∧ RegWF idemState :=
  ⟨(spec_C2_idempotent_reconciliation 49152 9 idemCont sysInit idemState rfl).1,
   (spec_C2_idempotent_reconciliation 49152 9 idemCont sysInit idemState rfl).2
     List.Pairwise.nil⟩

/-! ## removeContainer lemmas -/

theorem releasePort_claim_mono (a p a' p' : Nat) (s : AllocState)
    (h : claimedPair (releasePort a p s) a' p' = true) :
    claimedPair s a' p' = true := by
  by_cases hx : a' = a ∧ p' = p
  · obtain ⟨h1, h2⟩ := hx
    subst h1
    subst h2
    rw [releasePort_claim_self] at h
    cases h
  · rw [releasePort_claim_other a p s a' p' (by tauto)] at h
    exact h

theorem removeContainerGo_registry (cid : String) :
    ∀ ws s evs, (removeContainerGo cid ws s evs).1.containerListeners =
      s.containerListeners.filter
        (fun x => !(ws.any (fun e => belongsTo cid e.1 && x.1 == e.1))) := by
  intro ws
  induction ws with
  | nil =>
    intro s evs
    simp [removeContainerGo]
  | cons e rest ih =>
    intro s evs
    by_cases hb : belongsTo cid e.1 = true
    · rw [removeContainerGo, if_pos hb, ih]
      simp only [List.filter_filter]
      apply List.filter_congr
      intro x _
      simp [hb, Bool.and_comm, Bool.or_comm, Bool.not_or]
    · rw [removeContainerGo, if_neg hb, ih]
      apply List.filter_congr
      intro x _
      have hb0 : belongsTo cid e.1 = false := by simpa using hb
      simp [hb0]

theorem removeContainerGo_zone (cid : String) :
    ∀ ws s evs, (removeContainerGo cid ws s evs).1.dnsZone =
      s.dnsZone.filter
        (fun z => !(ws.any (fun e => belongsTo cid e.1 && z.1 == e.2.dnsName))) := by
  intro ws
  induction ws with
  | nil =>
    intro s evs
    simp [removeContainerGo]
  | cons e rest ih =>
    intro s evs
    by_cases hb : belongsTo cid e.1 = true
    · rw [removeContainerGo, if_pos hb, ih]
      simp only [List.filter_filter]
      apply List.filter_congr
      intro z _
      simp [hb, Bool.and_comm, Bool.or_comm, Bool.not_or]
    · rw [removeContainerGo, if_neg hb, ih]
      apply List.filter_congr
      intro z _
      have hb0 : belongsTo cid e.1 = false := by simpa using hb
      simp [hb0]

theorem removeContainerGo_claims_mono (cid : String) :
    ∀ ws s evs a p,
      claimedPair (removeContainerGo cid ws s evs).1.sourceAddrs a p = true →
      claimedPair s.sourceAddrs a p = true := by
  intro ws
  induction ws with
  | nil =>
    intro s evs a p h
    simpa [removeContainerGo] using h
  | cons e rest ih =>
    intro s evs a p h
    by_cases hb : belongsTo cid e.1 = true
    · rw [removeContainerGo, if_pos hb] at h
      exact releasePort_claim_mono _ _ _ _ _ (ih _ _ a p h)
    · rw [removeContainerGo, if_neg hb] at h
      exact ih _ _ a p h

theorem removeContainerGo_claims_released (cid : String) :
    ∀ ws s evs, ∀ e ∈ ws, belongsTo cid e.1 = true →
      claimedPair (removeContainerGo cid ws s evs).1.sourceAddrs
        e.2.src.ip e.2.src.port = false := by
  intro ws
  induction ws with
  | nil => intro s evs e he; simp at he
  | cons q rest ih =>
    intro s evs e he hb
    rcases List.mem_cons.mp he with he | he
    · subst he
      rw [removeContainerGo, if_pos hb]
      rw [← Bool.not_eq_true]
      intro hcl
      have := removeContainerGo_claims_mono cid rest _ _ _ _ hcl
      rw [releasePort_claim_self] at this
      cases this
    · by_cases hq : belongsTo cid q.1 = true
      · rw [removeContainerGo, if_pos hq]
        exact ih _ _ e he hb
      · rw [removeContainerGo, if_neg hq]
        exact ih _ _ e he hb

theorem removeContainerGo_trace (cid : String) :
    ∀ ws s evs, (removeContainerGo cid ws s evs).2 =
      evs ++ ((ws.filter (fun e => belongsTo cid e.1)).map entryEvents).flatten := by
  intro ws
  induction ws with
  | nil =>
    intro s evs
    simp [removeContainerGo]
  | cons e rest ih =>
    intro s evs
    by_cases hb : belongsTo cid e.1 = true
    · rw [removeContainerGo, if_pos hb, ih]
      simp [hb, List.append_assoc]
    · rw [removeContainerGo, if_neg hb, ih]
      have hb0 : belongsTo cid e.1 = false := by simpa using hb
      simp [hb0]

/-- **C9** (full cleanup with ordering): `removeContainer cid` removes
exactly the registry entries whose key belongs to `cid`; for each such
entry its (SourceAddress, port) claim is gone from the allocator and its
hostname is gone from the DNS zone; and the emitted action trace is the
concatenation, per removed entry, of the block
[registry delete, zone delete, claim release, listener stop] — so all
bookkeeping removal for an entry precedes that entry's `Stop()`. -/
theorem spec_C9_full_cleanup (cid : String) (st : SysState) :
    (removeContainer cid st).1.containerListeners =
        st.containerListeners.filter (fun e => !(belongsTo cid e.1))
    ∧ (∀ e ∈ st.containerListeners, belongsTo cid e.1 = true →
        claimedPair (removeContainer cid st).1.sourceAddrs
            e.2.src.ip e.2.src.port = false
        ∧ ∀ z ∈ (removeContainer cid st).1.dnsZone, z.1 ≠ e.2.dnsName)
    ∧ (removeContainer cid st).2 =
        ((st.containerListeners.filter (fun e => belongsTo cid e.1)).map
            entryEvents).flatten := by
  refine ⟨?_, ?_, ?_⟩
  · unfold removeContainer
    rw [removeContainerGo_registry cid st.containerListeners st []]
    apply List.filter_congr
    intro x hx
    by_cases hb : belongsTo cid x.1 = true
    · have hany : st.containerListeners.any
          (fun e => belongsTo cid e.1 && x.1 == e.1) = true := by
        rw [List.any_eq_true]
        exact ⟨x, hx, by simp [hb]⟩
      rw [hany, hb]
    · have hb0 : belongsTo cid x.1 = false := by simpa using hb
      have hany : st.containerListeners.any
          (fun e => belongsTo cid e.1 && x.1 == e.1) = false := by
        rw [List.any_eq_false]
        intro e he
        simp only [Bool.and_eq_true, beq_iff_eq, not_and]
        intro hbe hxe
        rw [hxe] at hb0
        rw [hbe] at hb0
        cases hb0
      rw [hany, hb0]
  · intro e he hb
    constructor
    · unfold removeContainer
      exact removeContainerGo_claims_released cid st.containerListeners st [] e he hb
    · intro z hz hzname
      unfold removeContainer at hz
      rw [removeContainerGo_zone cid st.containerListeners st []] at hz
      have hpred := (List.mem_filter.mp hz).2
      simp only [Bool.not_eq_true'] at hpred
      have h2 := List.any_eq_false.mp hpred e he
      simp only [Bool.and_eq_true, beq_iff_eq, not_and] at h2
      exact (h2 hb) hzname
  · unfold removeContainer
    have := removeContainerGo_trace cid st.containerListeners st []
    simpa using this

theorem spec_C9_full_cleanup_witness :
    claimedPair (removeContainer "aaa" collState).1.sourceAddrs
        SourceStartIP 80 = false
    ∧ (removeContainer "aaa" collState).1.containerListeners =
        collState.containerListeners.filter (fun e => !(belongsTo "aaa" e.1)) :=
  ⟨((spec_C9_full_cleanup "aaa" collState).2.1
      ("aaa:80", ⟨"web-1", ⟨SourceStartIP, 80⟩, ⟨5, 80⟩⟩)
      (by decide) (by decide)).1,
   (spec_C9_full_cleanup "aaa" collState).1⟩

/-! ## DNS zone lemmas -/

theorem zoneLookup_map_update (n : String) (ip : Nat) :
    ∀ z : List (String × Nat), z.any (fun e => e.1 == n) = true →
      zoneLookup n (z.map (fun e => if e.1 == n then (e.1, ip) else e)) =
        some ip := by
  intro z
  induction z with
  | nil => intro h; simp at h
  | cons e rest ih =>
    intro h
    by_cases he : (e.1 == n) = true
    · simp only [List.map_cons, if_pos he, zoneLookup]
      rw [List.find?_cons_of_pos _ (by simpa using he)]
      simp
    · simp only [List.map_cons, if_neg he, zoneLookup]
      rw [List.find?_cons_of_neg _ (by simpa using he)]
      have hrest : rest.any (fun e => e.1 == n) = true := by
        simp only [List.any_cons, Bool.or_eq_true] at h
        rcases h with h | h
        · exact absurd h he
        · exact h
      exact ih hrest

theorem zoneLookup_append_new (n : String) (ip : Nat) :
    ∀ z : List (String × Nat), z.any (fun e => e.1 == n) = false →
      zoneLookup n (z ++ [(n, ip)]) = some ip := by
  intro z
  induction z with
  | nil => simp [zoneLookup, List.find?]
  | cons e rest ih =>
    intro h
    simp only [List.any_cons, Bool.or_eq_false_iff] at h
    simp only [List.cons_append, zoneLookup]
    rw [List.find?_cons_of_neg _ (by simp [h.1])]
    exact ih h.2

theorem zoneLookup_insert (n : String) (ip : Nat) (z : List (String × Nat)) :
    zoneLookup n (zoneInsert n ip z) = some ip := by
  unfold zoneInsert
  by_cases h : z.any (fun e => e.1 == n) = true
  · rw [if_pos h]
    exact zoneLookup_map_update n ip z h
  · rw [if_neg h]
    exact zoneLookup_append_new n ip z (Bool.eq_false_iff.mpr h)

theorem zoneInsert_wf (n : String) (ip : Nat) (z : List (String × Nat))
    (h : ZoneWF z) : ZoneWF (zoneInsert n ip z) := by
  unfold ZoneWF at h ⊢
  unfold zoneInsert
  by_cases ha : z.any (fun e => e.1 == n) = true
  · rw [if_pos ha, List.pairwise_map]
    apply h.imp
    intro a b hab
    by_cases h1 : (a.1 == n) = true <;> by_cases h2 : (b.1 == n) = true <;>
      simp [h1, h2, hab]
  · rw [if_neg ha, List.pairwise_append]
    refine ⟨h, by simp, ?_⟩
    intro a ha' b hb
    simp only [List.mem_singleton] at hb
    subst hb
    have := List.any_eq_false.mp (Bool.eq_false_iff.mpr ha) a ha'
    simpa using this

/-- **C10** (hostname-collision frame effect): the DNS zone is keyed only
by the derived hostname and holds at most one address per name
(map-assignment overwrites, well-formedness is preserved); in the
concrete two-container scenario where `collA` ("aaa", name `web#1`) and
`collB` ("bbb", name `web-1`) derive the same hostname `web-1`, after
reconciling both the zone maps `web-1` to the most recently started
Listener's source address (`succIP SourceStartIP`, collB's), both
registry entries are present, and removing *either* container deletes
that single zone entry even though the other container's Listener stays
registered. -/
theorem spec_C10_hostname_collision :
    (∀ n ip z, zoneLookup n (zoneInsert n ip z) = some ip)
    ∧ (∀ n ip z, ZoneWF z → ZoneWF (zoneInsert n ip z))
    ∧ zoneLookup "web-1" collState.dnsZone = some (succIP SourceStartIP)
    ∧ keyPresent "aaa:80" collState = true
    ∧ keyPresent "bbb:80" collState = true
    ∧ zoneLookup "web-1" (removeContainer "aaa" collState).1.dnsZone = none
    ∧ keyPresent "bbb:80" (removeContainer "aaa" collState).1 = true
    ∧ zoneLookup "web-1" (removeContainer "bbb" collState).1.dnsZone = none
    ∧ keyPresent "aaa:80" (removeContainer "bbb" collState).1 = true :=
  ⟨zoneLookup_insert, zoneInsert_wf, by decide, by decide, by decide,
   by decide, by decide, by decide, by decide⟩

theorem spec_C10_hostname_collision_witness :
    ZoneWF (zoneInsert "web-1" 5 []) :=
  spec_C10_hostname_collision.2.1 "web-1" 5 [] List.Pairwise.nil

/-! ## Relay lifecycle lemmas -/

theorem relayStep_inv (s s' : RelayState) (a : RelayAct)
    (hinv : RelayInv s) (h : relayStep s a = some s') : RelayInv s' := by
  obtain ⟨h1, h2, h3, h4⟩ := hinv
  cases a with
  | acceptDialOk =>
    rw [relayStep] at h
    split at h
    · rename_i hg
      obtain ⟨hacc, htr⟩ := hg
      simp only [Option.some.injEq] at h
      subst h
      rw [if_pos htr] at h1
      refine ⟨?_, ?_, h3, h4⟩
      · dsimp only
        rw [if_pos htr]
        omega
      · intro hw
        have := h2 hw
        exfalso
        omega
    · simp at h
  | acceptDialFail =>
    rw [relayStep] at h
    split at h
    · simp only [Option.some.injEq] at h
      subst h
      exact ⟨h1, h2, h3, h4⟩
    · simp at h
  | copyDoneFirst =>
    rw [relayStep] at h
    split at h
    · rename_i hg
      simp only [Option.some.injEq] at h
      subst h
      refine ⟨?_, ?_, h3, h4⟩
      · dsimp only
        rcases Bool.eq_false_or_eq_true s.trackerAlive with htr | htr
        · rw [htr] at h1 ⊢
          rw [if_pos rfl] at h1 ⊢
          omega
        · rw [htr] at h1 ⊢
          rw [if_neg (by simp)] at h1 ⊢
          omega
      · intro hw
        have := h2 hw
        exfalso
        rcases Bool.eq_false_or_eq_true s.trackerAlive with htr | htr
        · rw [htr, if_pos rfl] at h1
          omega
        · rw [htr, if_neg (by simp)] at h1
          omega
    · simp at h
  | copyDoneSecond =>
    rw [relayStep] at h
    split at h
    · rename_i hg
      simp only [Option.some.injEq] at h
      subst h
      refine ⟨?_, ?_, h3, h4⟩
      · dsimp only
        rcases Bool.eq_false_or_eq_true s.trackerAlive with htr | htr
        · rw [htr] at h1 ⊢
          rw [if_pos rfl] at h1 ⊢
          omega
        · rw [htr] at h1 ⊢
          rw [if_neg (by simp)] at h1 ⊢
          omega
      · intro hw
        have := h2 hw
        exfalso
        rcases Bool.eq_false_or_eq_true s.trackerAlive with htr | htr
        · rw [htr, if_pos rfl] at h1
          omega
        · rw [htr, if_neg (by simp)] at h1
          omega
    · simp at h
  | reportClosed =>
    rw [relayStep] at h
    split at h
    · simp only [Option.some.injEq] at h
      subst h
      exact ⟨h1, h2, h3, h4⟩
    · simp at h
  | stopClose =>
    rw [relayStep] at h
    split at h
    · simp only [Option.some.injEq] at h
      subst h
      refine ⟨h1, h2, ?_, ?_⟩
      · intro hr
        simp at hr
      · intro _
        rfl
    · simp at h
  | acceptError =>
    rw [relayStep] at h
    split at h
    · simp only [Option.some.injEq] at h
      subst h
      exact ⟨h1, h2, h3, h4⟩
    · simp at h
  | trackerRecvAcceptSignal =>
    rw [relayStep] at h
    split at h
    · rename_i hg
      obtain ⟨hacc, htr⟩ := hg
      simp only [Option.some.injEq] at h
      subst h
      rw [if_pos htr] at h1
      refine ⟨?_, ?_, ?_, h4⟩
      · dsimp only
        rw [if_neg (by simp)]
        omega
      · intro hw
        have := h2 hw
        exfalso
        omega
      · intro _
        rfl
    · simp at h
  | trackerRecvStopSignal =>
    rw [relayStep] at h
    split at h
    · rename_i hg
      obtain ⟨hsig, htr⟩ := hg
      simp only [Option.some.injEq] at h
      subst h
      rw [if_pos htr] at h1
      refine ⟨?_, ?_, ?_, ?_⟩
      · dsimp only
        rw [if_neg (by simp)]
        omega
      · intro hw
        have := h2 hw
        exfalso
        omega
      · intro _
        rfl
      · intro _
        exact h4 (by rw [hsig]; decide)
    · simp at h
  | waitReturn =>
    rw [relayStep] at h
    split at h
    · rename_i hf
      simp only [Option.some.injEq] at h
      subst h
      exact ⟨h1, fun _ => hf, h3, h4⟩
    · simp at h

theorem relayInit_inv : RelayInv relayInit := by
  refine ⟨by decide, ?_, ?_, ?_⟩
  · intro hw
    simp [relayInit] at hw
  · intro hr
    simp [relayInit] at hr
  · intro hi
    exact absurd rfl hi

theorem relayRunAux_inv : ∀ acts s0 s1, RelayInv s0 →
    List.foldlM relayStep s0 acts = some s1 → RelayInv s1 := by
  intro acts
  induction acts with
  | nil =>
    intro s0 s1 h0 h
    simp only [List.foldlM_nil, Option.pure_def, Option.some.injEq] at h
    exact h ▸ h0
  | cons a rest ih =>
    intro s0 s1 h0 h
    simp only [List.foldlM_cons] at h
    cases hstep : relayStep s0 a with
    | none => rw [hstep] at h; simp at h
    | some sm =>
      rw [hstep] at h
      simp only [Option.bind_eq_bind, Option.some_bind] at h
      exact ih sm s1 (relayStep_inv s0 sm a h0 hstep) h

/-- **C3** counterexample: it is not the case that whenever `Stop()` has
returned, every forward/copy activity of connections open at the time of
the `Stop` call has completed.  In the interleaving `c3StopTrace` a
connection is accepted and dialled, `Stop` closes the socket, the
tracker receives `Stop`'s close-all signal and `Stop` returns — while
both copy goroutines of that connection are still running (`Stop` never
waits on the `finished` WaitGroup; only `Wait()` does). -/
theorem spec_C3_counterexample :
    ¬ (∀ acts s, relayRun acts = some s → s.stopPhase = StopPhase.returned →
        s.fullForwards = 0 ∧ s.halfForwards = 0) := by
  intro hclaim
  have h := hclaim c3StopTrace
    ⟨2, false, 0, 1, 0, 0, .closing, true, .returned, false⟩ (by decide) rfl
  exact absurd h.1 (by decide)

/-- **C3** amended: `Stop()` closes the listening socket and signals the
tracker; it returns once the tracker has received a close-all signal —
without waiting for the forward/copy activities.  It is `Wait()` that
blocks until complete shutdown: in every reachable state of the relay
transition system, if `Wait` has returned then the WaitGroup counter is
zero, the tracker has exited and no copy activity remains; and whenever
`Stop` has returned the tracker has exited and the listening socket is
closed. -/
theorem spec_C3_amended (acts : List RelayAct) (s : RelayState)
    (h : relayRun acts = some s) :
    (s.waitReturned = true → s.finished = 0 ∧ s.trackerAlive = false
        ∧ s.fullForwards = 0 ∧ s.halfForwards = 0)
    ∧ (s.stopPhase = StopPhase.returned →
        s.trackerAlive = false ∧ s.listenerClosed = true) := by
  obtain ⟨h1, h2, h3, h4⟩ := relayRunAux_inv acts relayInit s relayInit_inv h
  constructor
  · intro hw
    have hf := h2 hw
    rcases Bool.eq_false_or_eq_true s.trackerAlive with htr | htr
    · rw [htr, if_pos rfl] at h1
      exfalso
      omega
    · rw [htr, if_neg (by simp)] at h1
      exact ⟨hf, htr, by omega, by omega⟩
  · intro hstop
    exact ⟨h3 hstop, h4 (by rw [hstop]; decide)⟩

theorem spec_C3_amended_witness :
    c3FinalState.finished = 0 ∧ c3FinalState.trackerAlive = false
    ∧ c3FinalState.fullForwards = 0 ∧ c3FinalState.halfForwards = 0 :=
  (spec_C3_amended c3FullTrace c3FinalState (by decide)).1 rfl
